import Mathlib

/-!
Shallow embedding of the tonic-config registry engine (src/tonic/config.py).

Python dictionaries are modelled as association lists in insertion order
(assignment replaces a binding in place, otherwise appends, exactly like a
CPython dict).  Python callables are modelled as a qualified name together
with an ordered parameter list; the opaque return value of invoking a
callable is modelled symbolically as a value tagged with the callable id
and its invocation index, so that distinct invocations are distinguishable
while the argument environment passed to the callable is tracked exactly.
Exceptions are modelled with Except / Option Err; a stateful operation that
can raise returns the state as it stood when the exception propagated.
-/

-- ===================================================================== --
-- values                                                                --
-- ===================================================================== --

/-- Model of a Python value stored in a configuration.  vfunc is a raw
callable object carrying its qualified name (can_configure is true exactly
for these); vinst models an Instanced wrapper and records both the cid
under which the referenced Configurable is keyed in the registry table and
that object's nid (Instanced holds the object itself in the source, so both
attributes are available); vret is the opaque result of invocation number n
of the configurable with the given cid. -/
inductive Val where
  | vint : Int → Val
  | vstr : String → Val
  | vnone : Val
  | vfunc : String → Val
  | vinst : String → String → Val
  | vret : String → Nat → Val
deriving DecidableEq, Repr

/-- Whether a value is an Instanced wrapper. -/
def Val.isInst : Val → Bool
  | .vinst _ _ => true
  | _ => false

/-- Configurable.can_configure: only function/method/class objects. -/
def can_configure : Val → Bool
  | .vfunc _ => true
  | _ => false

/-- One parameter of a callable signature: a name and an optional default. -/
structure Param where
  name : String
  default : Option Val
deriving DecidableEq, Repr

/-- A Python callable: qualified name plus ordered parameter list. -/
structure Func where
  qualname : String
  params : List Param
deriving DecidableEq, Repr

/-- A parameter-to-value map (one namespace configuration, kwargs, or a
bound argument environment), in insertion order. -/
abbrev Cfg := List (String × Val)

-- ===================================================================== --
-- association-list dictionaries                                         --
-- ===================================================================== --

/-- Lookup in an insertion-ordered dictionary (first binding wins). -/
def lookupStr {α : Type} (m : List (String × α)) (k : String) : Option α :=
  match m with
  | [] => none
  | kv :: rest => if kv.1 = k then some kv.2 else lookupStr rest k

/-- Python dict assignment d[k] = v: replace in place if present, else
append at the end. -/
def insertStr {α : Type} (m : List (String × α)) (k : String) (v : α) :
    List (String × α) :=
  match m with
  | [] => [(k, v)]
  | kv :: rest =>
    if kv.1 = k then (k, v) :: rest else kv :: insertStr rest k v

/-- Python dict merge as in functools: the result of taking cfg and then
writing every binding of kw over it (later bindings win). -/
def mergeKw (cfg kw : Cfg) : Cfg :=
  kw.foldl (fun acc kv => insertStr acc kv.1 kv.2) cfg

-- ===================================================================== --
-- identifier validation (Configurable._KEY_PATTERN, validate_id)        --
-- ===================================================================== --

/-- A word character: the ASCII core of the regex class backslash-w.  The
host regex engine applies the class Unicode-aware on str patterns, so the
real pattern also accepts non-ASCII word characters; on strings made of
ASCII characters the two readings coincide, and every statement that
claims exactness of validation scopes itself to that domain. -/
def isWordChar (c : Char) : Bool := c.isAlphanum || c = '_'

/-- A nonempty run of word characters (one regex segment). -/
def isWordSeg (l : List Char) : Bool :=
  decide (l ≠ []) && l.all isWordChar

/-- Split a character list on the dot character, like str.split on dot:
always returns at least one (possibly empty) segment. -/
def segsAux : List Char → List Char → List (List Char)
  | [], acc => [acc.reverse]
  | c :: cs, acc =>
    if c = '.' then acc.reverse :: segsAux cs [] else segsAux cs (c :: acc)

/-- Segments of a character list, split on dots. -/
def segs (cs : List Char) : List (List Char) := segsAux cs []

/-- The reserved keywords of Python (keyword.iskeyword). -/
def pyKeywords : List String :=
  ["False", "None", "True", "and", "as", "assert", "async", "await",
   "break", "class", "continue", "def", "del", "elif", "else", "except",
   "finally", "for", "from", "global", "if", "import", "in", "is",
   "lambda", "nonlocal", "not", "or", "pass", "raise", "return", "while",
   "with", "try", "yield"]

/-- Whether the first character of a string is the given character. -/
def strHeadIs (s : String) (c : Char) : Bool :=
  match s.data with
  | [] => false
  | d :: _ => d = c

/-- Drop the first character of a string. -/
def strTail (s : String) : String := String.mk s.data.tail

/-- The body of _KEY_PATTERN after the optional marker: either a single
word, or a star namespace followed by exactly one word, or two or more
words; mirrors the regex alternation. -/
def segsPatternOk : List (List Char) → Bool
  | [] => false
  | [w] => isWordSeg w
  | w :: rest =>
    if w = ['*'] then rest.length = 1 && rest.all isWordSeg
    else (w :: rest).all isWordSeg

/-- Full match of Configurable._KEY_PATTERN: an optional leading marker
character, then the namespace/word body.  The end anchor of the host
regex also matches just before one newline at the end of the string; the
model takes the plain end-of-string reading, so exactness statements
about validation additionally exclude strings ending in a newline. -/
def matchKeyPattern (s : String) : Bool :=
  let t := if strHeadIs s '@' then strTail s else s
  segsPatternOk (segs t.data)

/-- TypeError kinds from binding call arguments against a signature. -/
inductive CallErr where
  | tooManyPositional : CallErr
  | unexpectedKeyword : String → CallErr
  | multipleValues : String → CallErr
  | missingRequired : String → CallErr
deriving DecidableEq, Repr

/-- The error taxonomy of the module.  invalidName and keywordName are the
two ValueError branches of validate_id; duplicateMember is the KeyError of
Namespace.register_configurable; duplicateConfigurable is the KeyError of
Config.configure step 2; unknownConfigurable and notInstancable are the
errors of Instanced.convert_for_load; unpackError is the ValueError raised
when rsplit on the last dot cannot unpack into two names; notReconfigured
is the RuntimeError of _make_defaults_func; unknownCid covers dereferences
of an unregistered cid (unreachable through the public API); callError is a
TypeError from argument binding; outOfFuel is the artificial bound on
recursion depth of the embedding. -/
inductive Err where
  | invalidName : String → Err
  | keywordName : String → Err
  | duplicateMember : Err
  | duplicateConfigurable : String → Err
  | unknownConfigurable : String → String → Err
  | notInstancable : String → Err
  | unpackError : String → Err
  | notReconfigured : Err
  | unknownCid : String → Err
  | callError : CallErr → Err
  | outOfFuel : Err
deriving DecidableEq, Repr

/-- Configurable.validate_id: the full string must match _KEY_PATTERN and
no dot-segment of the raw string may be a Python keyword. -/
def validate_id (s : String) : Except Err String :=
  if matchKeyPattern s = false then .error (.invalidName s)
  else if (segs s.data).any (fun seg => pyKeywords.contains (String.mk seg))
  then .error (.keywordName s)
  else .ok s

/-- Configurable.nid_from_func applied to a qualified name: strip the
locals markers, then validate. -/
def replaceLocals : List Char → List Char
  | [] => []
  | '.' :: '<' :: 'l' :: 'o' :: 'c' :: 'a' :: 'l' :: 's' :: '>' :: cs =>
    replaceLocals cs
  | c :: cs => c :: replaceLocals cs

/-- Derived identity of a callable: its qualified name with locals
qualifiers stripped, validated. -/
def nid_from_func (qualname : String) : Except Err String :=
  validate_id (String.mk (replaceLocals qualname.data))

-- ===================================================================== --
-- registry data model                                                   --
-- ===================================================================== --

/-- Configurable: the registered callable together with its identity and
its lazy-rebinding state.  invoke_count instruments the number of times the
underlying callable has actually been invoked (for observing Instanced
materialization); it corresponds to no stored field of the source. -/
structure Configurable where
  func : Func
  cid : String
  nid : String
  is_dirty : Bool
  last_ns_config : Option Cfg
  last_global_config : Option Cfg
  cached_kwargs : Option Cfg
  invoke_count : Nat
deriving DecidableEq, Repr

/-- Configurable.configurable_param_names: the parameters of the callable
that carry a default value, in signature order. -/
def configurable_param_names (f : Func) : List String :=
  (f.params.filter (fun p => p.default.isSome)).map Param.name

/-- Namespace: its id, the union of configurable parameter names of its
members, and the cids of its members. -/
structure Namespace where
  nid : String
  param_names : List String
  cids : List String
deriving DecidableEq, Repr

/-- Ordered union used for Namespace.param_names (a Python set in the
source; the order is not observable through any claim). -/
def unionList (a b : List String) : List String :=
  a ++ b.filter (fun x => decide (x ∉ a))

/-- The full registry state of one Config object: the Configurable table
keyed by cid, the Namespace table keyed by nid, and the current internal
namespace-configuration map. -/
structure ConfigState where
  configurables : List (String × Configurable)
  namespaces : List (String × Namespace)
  namespace_configs : List (String × Cfg)
deriving DecidableEq, Repr

/-- The state of a freshly constructed Config object. -/
def ConfigState.init : ConfigState := ⟨[], [], []⟩

/-- Configurable.__init__ for a callable with optional explicit nid / cid:
the cid is derived (or validated) first, then the nid, as in the source. -/
def mkConfigurable (f : Func) (nsArg cidArg : Option String) :
    Except Err Configurable :=
  match (match cidArg with
         | none => nid_from_func f.qualname
         | some c => validate_id c) with
  | .error e => .error e
  | .ok cid =>
    match (match nsArg with
           | none => nid_from_func f.qualname
           | some n => validate_id n) with
    | .error e => .error e
    | .ok nid => .ok ⟨f, cid, nid, true, none, none, none, 0⟩

/-- Config.configure / its inner register: create the Configurable, add it
to its Namespace (creating the Namespace if absent; the duplicate-member
KeyError fires before the registry table is touched), then add it to the
Configurable table (duplicate-cid KeyError), then prime it with an initial
reconfigure from the current namespace configuration.  The returned state
is the state at the point the exception propagated, if any. -/
def register (st : ConfigState) (f : Func) (nsArg cidArg : Option String) :
    ConfigState × Option Err :=
  match mkConfigurable f nsArg cidArg with
  | .error e => (st, some e)
  | .ok c =>
    let stns : ConfigState × Namespace :=
      match lookupStr st.namespaces c.nid with
      | some ns => (st, ns)
      | none =>
        (⟨st.configurables, st.namespaces ++ [(c.nid, ⟨c.nid, [], []⟩)],
          st.namespace_configs⟩, ⟨c.nid, [], []⟩)
    let st1 := stns.1
    let ns := stns.2
    if ns.cids.contains c.cid then (st1, some .duplicateMember)
    else
      let ns2 : Namespace :=
        ⟨ns.nid, unionList ns.param_names (configurable_param_names f),
         ns.cids ++ [c.cid]⟩
      let st2 : ConfigState :=
        ⟨st1.configurables, insertStr st1.namespaces c.nid ns2,
         st1.namespace_configs⟩
      match lookupStr st2.configurables c.cid with
      | some _ => (st2, some (.duplicateConfigurable c.cid))
      | none =>
        let c2 : Configurable :=
          { c with
            is_dirty := true,
            last_ns_config :=
              some ((lookupStr st2.namespace_configs c.nid).getD []),
            last_global_config :=
              some ((lookupStr st2.namespace_configs "*").getD []) }
        (⟨st2.configurables ++ [(c.cid, c2)], st2.namespaces,
          st2.namespace_configs⟩, none)

-- ===================================================================== --
-- flat-config conversion (load and save direction)                      --
-- ===================================================================== --

/-- Instanced.convert_for_load: an at-marked key must carry either a string
naming a registered cid or a callable whose derived name is a registered
cid; the marker is stripped and the value replaced by an Instanced wrapper
referencing the registered Configurable. -/
def convert_for_load (cfgables : List (String × Configurable))
    (key : String) (value : Val) : Except Err (String × Val) :=
  if strHeadIs key '@' then
    match value with
    | .vstr cid =>
      (match lookupStr cfgables cid with
       | none => .error (.unknownConfigurable key cid)
       | some c => .ok (strTail key, .vinst cid c.nid))
    | .vfunc q =>
      (match nid_from_func q with
       | .error e => .error e
       | .ok cid =>
         match lookupStr cfgables cid with
         | none => .error (.unknownConfigurable key cid)
         | some c => .ok (strTail key, .vinst cid c.nid))
    | _ => .error (.notInstancable key)
  else .ok (key, value)

/-- Instanced.convert_for_save: an Instanced entry becomes an at-marked key
whose value is the nid string of the referenced Configurable (the source
reads value.configurable.nid here). -/
def convert_for_save (key : String) (value : Val) : String × Val :=
  match value with
  | .vinst _ nid => (String.mk ('@' :: key.data), .vstr nid)
  | v => (key, v)

/-- Splitting a key at its last dot, as key.rsplit with one split: none
when the key holds no dot (the two-name unpacking then fails). -/
def rsplitDotAux : List Char → Option (List Char × List Char)
  | [] => none
  | c :: cs =>
    match rsplitDotAux cs with
    | some (a, b) => some (c :: a, b)
    | none => if c = '.' then some ([], cs) else none

/-- Split a key string at its last dot into namespace and parameter. -/
def rsplitDot (s : String) : Option (String × String) :=
  match rsplitDotAux s.data with
  | some (a, b) => some (String.mk a, String.mk b)
  | none => none

/-- Insert one parameter binding into a namespace-configuration map, like
namespace_configs.setdefault(namespace, dict())[param] = value. -/
def nsInsert (acc : List (String × Cfg)) (ns param : String) (v : Val) :
    List (String × Cfg) :=
  match lookupStr acc ns with
  | some c => insertStr acc ns (insertStr c param v)
  | none => acc ++ [(ns, [(param, v)])]

/-- Config._flat_config_to_namespace_configs, one entry at a time: convert
an instanced entry, validate the (converted) key, split it on its last
dot, store the binding; the first failing entry aborts the whole
conversion. -/
def flatToNsAux (cfgables : List (String × Configurable)) :
    List (String × Val) → List (String × Cfg) →
    Except Err (List (String × Cfg))
  | [], acc => .ok acc
  | (key, value) :: rest, acc =>
    match convert_for_load cfgables key value with
    | .error e => .error e
    | .ok (key, value) =>
      match validate_id key with
      | .error e => .error e
      | .ok _ =>
        match rsplitDot key with
        | none => .error (.unpackError key)
        | some (ns, param) =>
          flatToNsAux cfgables rest (nsInsert acc ns param value)

/-- Config._flat_config_to_namespace_configs. -/
def flat_config_to_namespace_configs
    (cfgables : List (String × Configurable))
    (flat : List (String × Val)) : Except Err (List (String × Cfg)) :=
  flatToNsAux cfgables flat []

/-- Insertion of a string into a sorted list, ordering by code points as
Python sorted does on str. -/
def charListLe : List Char → List Char → Bool
  | [], _ => true
  | _ :: _, [] => false
  | a :: as, b :: bs =>
    if a = b then charListLe as bs else decide (a.toNat < b.toNat)

/-- Insert into a sorted list of strings. -/
def insertSorted (s : String) : List String → List String
  | [] => [s]
  | t :: ts =>
    if charListLe s.data t.data then s :: t :: ts else t :: insertSorted s ts

/-- Sort a list of strings by code points, as Python sorted. -/
def sortStr (l : List String) : List String := l.foldr insertSorted []

/-- Config._namespace_configs_to_flat_config: iterate namespaces and
parameter names in sorted order, rebuild the dotted key, and convert
Instanced entries back through convert_for_save. -/
def namespace_configs_to_flat_config (nc : List (String × Cfg)) :
    List (String × Val) :=
  (sortStr (nc.map Prod.fst)).foldl
    (fun flat ns =>
      let conf := (lookupStr nc ns).getD []
      (sortStr (conf.map Prod.fst)).foldl
        (fun flat name =>
          match lookupStr conf name with
          | some v =>
            let kv :=
              convert_for_save (String.mk (ns.data ++ '.' :: name.data)) v
            insertStr flat kv.1 kv.2
          | none => flat)
        flat)
    []

-- ===================================================================== --
-- set / update / reset                                                  --
-- ===================================================================== --

/-- Config._reconfigure_all: hand every Configurable its namespace and
global configuration from the current map and mark it dirty. -/
def reconfigure_all (st : ConfigState) : ConfigState :=
  let gl := (lookupStr st.namespace_configs "*").getD []
  ⟨st.configurables.map
    (fun kv =>
      (kv.1,
       { kv.2 with
         is_dirty := true,
         last_ns_config :=
           some ((lookupStr st.namespace_configs kv.2.nid).getD []),
         last_global_config := some gl })),
   st.namespaces, st.namespace_configs⟩

/-- Config.set: parse the whole flat configuration first (any failure
leaves the state untouched), replace the namespace-configuration map, and
reconfigure every Configurable. -/
def Config.set (st : ConfigState) (flat : List (String × Val)) :
    ConfigState × Option Err :=
  match flat_config_to_namespace_configs st.configurables flat with
  | .error e => (st, some e)
  | .ok nc =>
    (reconfigure_all ⟨st.configurables, st.namespaces, nc⟩, none)

/-- Merging freshly parsed namespace configurations over the existing map,
namespace by namespace, as Config.update does with setdefault and
dict.update. -/
def mergeNsConfigs (old new : List (String × Cfg)) : List (String × Cfg) :=
  new.foldl
    (fun acc nsc =>
      match lookupStr acc nsc.1 with
      | some oldc =>
        insertStr acc nsc.1
          (nsc.2.foldl (fun c kv => insertStr c kv.1 kv.2) oldc)
      | none => acc ++ [(nsc.1, nsc.2)])
    old

/-- Config.update: parse the whole flat configuration first, merge it over
the existing namespace-configuration map, and reconfigure everything. -/
def Config.update (st : ConfigState) (flat : List (String × Val)) :
    ConfigState × Option Err :=
  match flat_config_to_namespace_configs st.configurables flat with
  | .error e => (st, some e)
  | .ok nc =>
    (reconfigure_all
      ⟨st.configurables, st.namespaces,
       mergeNsConfigs st.namespace_configs nc⟩, none)

/-- Config.reset: literally Config.set of the empty map. -/
def Config.reset (st : ConfigState) : ConfigState × Option Err :=
  Config.set st []

-- ===================================================================== --
-- call-time argument binding                                            --
-- ===================================================================== --

/-- Bind the non-positional remainder of a signature: a keyword argument
if supplied, else the declared default, else a missing-argument error;
positional values are consumed by the first parameters in order. -/
def buildEnv : List Param → List Val → Cfg → Except CallErr Cfg
  | [], _, _ => .ok []
  | p :: ps, v :: vs, kw =>
    (match buildEnv ps vs kw with
     | .ok env => .ok ((p.name, v) :: env)
     | .error e => .error e)
  | p :: ps, [], kw =>
    match lookupStr kw p.name with
    | some v =>
      (match buildEnv ps [] kw with
       | .ok env => .ok ((p.name, v) :: env)
       | .error e => .error e)
    | none =>
      match p.default with
      | some d =>
        (match buildEnv ps [] kw with
         | .ok env => .ok ((p.name, d) :: env)
         | .error e => .error e)
      | none => .error (.missingRequired p.name)

/-- Python call binding of positional and keyword arguments against a
signature of simple parameters: rejects excess positional arguments,
keywords naming no parameter, and keywords for positionally filled
parameters, then binds every parameter.  The proxy of a registered
callable is functools partial application with the resolved kwargs, so a
proxy call binds with the merged keyword map. -/
def bindCall (params : List Param) (pos : List Val) (kw : Cfg) :
    Except CallErr Cfg :=
  if params.length < pos.length then .error .tooManyPositional
  else
    match kw.find? (fun kv => params.all (fun p => !(p.name == kv.1))) with
    | some kv => .error (.unexpectedKeyword kv.1)
    | none =>
      match kw.find?
          (fun kv => ((params.take pos.length).map Param.name).contains kv.1)
        with
      | some kv => .error (.multipleValues kv.1)
      | none => buildEnv params pos kw

-- ===================================================================== --
-- lazy resolution and proxy invocation                                  --
-- ===================================================================== --

/-- The kwargs-building loop of Configurable._make_defaults_func: for each
configurable parameter name, the namespace configuration takes priority,
then the global configuration, else the parameter is skipped; the chosen
value passes through the instantiation function (Instanced.try_instantiate,
which may invoke another configurable and so transform the state). -/
def mkKwargsAux (inst : ConfigState → Val → ConfigState × Except Err Val) :
    ConfigState → List String → Cfg → Cfg → Cfg →
    ConfigState × Except Err Cfg
  | st, [], _, _, acc => (st, .ok acc)
  | st, k :: ks, ns, gl, acc =>
    match (match lookupStr ns k with
           | some v => some v
           | none => lookupStr gl k) with
    | none => mkKwargsAux inst st ks ns gl acc
    | some v =>
      match inst st v with
      | (st1, .ok v1) => mkKwargsAux inst st1 ks ns gl (acc ++ [(k, v1)])
      | (st1, .error e) => (st1, .error e)

/-- Replace the Configurable stored under a cid. -/
def updateCfg (st : ConfigState) (cid : String)
    (f : Configurable → Configurable) : ConfigState :=
  ⟨st.configurables.map (fun kv => if kv.1 = cid then (kv.1, f kv.2) else kv),
   st.namespaces, st.namespace_configs⟩

/-- Invocation of the decorated proxy of the configurable registered under
cid (Configurable.decorated_func).  When dirty, _make_defaults_func runs:
it requires the pending configurations (RuntimeError otherwise), resolves
every configurable parameter with try_instantiate (recursively invoking the
proxy of an Instanced target with no arguments), then the dirty flag is
cleared, the pending configurations dropped and the partial application
kwargs cached.  The call then binds the caller arguments over the cached
kwargs exactly as functools partial does and invokes the underlying
callable, whose opaque result is tagged with the cid and the invocation
index; the bound argument environment is returned alongside it.  The fuel
bounds the recursion through Instanced chains, which the source leaves
unbounded. -/
def call_proxy : Nat → ConfigState → String → List Val → Cfg →
    ConfigState × Except Err (Cfg × Val)
  | 0, st, _, _, _ => (st, .error .outOfFuel)
  | Nat.succ fuel, st, cid, pos, kw =>
    match lookupStr st.configurables cid with
    | none => (st, .error (.unknownCid cid))
    | some c =>
      let resolved : ConfigState × Except Err Cfg :=
        if c.is_dirty then
          match c.last_ns_config, c.last_global_config with
          | some ns, some gl =>
            (match mkKwargsAux
                (fun s v =>
                  match v with
                  | .vinst t _ =>
                    (match call_proxy fuel s t [] [] with
                     | (s1, .ok r) => (s1, .ok r.2)
                     | (s1, .error e) => (s1, .error e))
                  | _ => (s, .ok v))
                st (configurable_param_names c.func) ns gl [] with
             | (st1, .ok kwargs) =>
               (updateCfg st1 cid
                  (fun c0 =>
                    { c0 with
                      is_dirty := false,
                      last_ns_config := none,
                      last_global_config := none,
                      cached_kwargs := some kwargs }),
                .ok kwargs)
             | (st1, .error e) => (st1, .error e))
          | _, _ => (st, .error .notReconfigured)
        else (st, .ok (c.cached_kwargs.getD []))
      match resolved with
      | (st1, .error e) => (st1, .error e)
      | (st1, .ok kwargs) =>
        match bindCall c.func.params pos (mergeKw kwargs kw) with
        | .error e => (st1, .error (.callError e))
        | .ok env =>
          let n :=
            ((lookupStr st1.configurables cid).map
              Configurable.invoke_count).getD 0
          (updateCfg st1 cid
             (fun c0 => { c0 with invoke_count := c0.invoke_count + 1 }),
           .ok (env, .vret cid n))

deriving instance DecidableEq for Except

-- ===================================================================== --
-- specification-side definitions (for comparison statements)            --
-- ===================================================================== --

/-- Selection of a configured value for one parameter, written as the spec
describes resolution: the namespace-local configuration first, else the
global configuration, else nothing.  Used in theorem statements and
compared against the kwargs-building loop of the implementation. -/
def specSelect (ns gl : Cfg) (k : String) : Option Val :=
  match lookupStr ns k with
  | some v => some v
  | none => lookupStr gl k

/-- The plain dotted-identifier grammar as the spec words it: a
dot-separated sequence of name segments, each a nonempty run of word
characters.  No marker character and no star segment is accepted. -/
def specIsPlainIdent (s : String) : Bool := (segs s.data).all isWordSeg

/-- The star-namespace form of the Key grammar: exactly two segments, the
first being the star, the second a word. -/
def starNsForm : List (List Char) → Bool
  | [a, w] => a = ['*'] && isWordSeg w
  | _ => false

/-- The Key grammar as the spec words it: an identifier-like path that may
additionally begin with a single instanced marker and may use the star
global segment as its namespace component. -/
def specIsKey (s : String) : Bool :=
  let t := if strHeadIs s '@' then strTail s else s
  specIsPlainIdent t || starNsForm (segs t.data)

/-- A configuration carrying no Instanced value. -/
def noInstCfg (m : Cfg) : Bool := m.all (fun kv => !kv.2.isInst)

/-- The argument environment a callable sees when invoked with no
arguments and no overrides: every parameter at its own declared default. -/
def defaultsEnv (f : Func) : Cfg :=
  f.params.map (fun p => (p.name, p.default.getD Val.vnone))

-- ===================================================================== --
-- reachable registry states                                             --
-- ===================================================================== --

/-- States of one Config object reachable through the public API:
construction, registration (with any outcome), set, update, reset, and
proxy invocation in any order. -/
inductive Reach : ConfigState → Prop where
  | init : Reach ConfigState.init
  | reg : ∀ st f nsArg cidArg, Reach st → Reach (register st f nsArg cidArg).1
  | set : ∀ st flat, Reach st → Reach (Config.set st flat).1
  | upd : ∀ st flat, Reach st → Reach (Config.update st flat).1
  | rst : ∀ st, Reach st → Reach (Config.reset st).1
  | call : ∀ st fuel cid pos kw, Reach st →
      Reach (call_proxy fuel st cid pos kw).1

/-- The dirty-state invariant of one Configurable: whenever it is marked
dirty, both pending configurations are present. -/
def ConfigurableOk (c : Configurable) : Prop :=
  c.is_dirty = true → c.last_ns_config.isSome ∧ c.last_global_config.isSome

/-- The registry invariant: every registered Configurable satisfies the
dirty-state invariant. -/
def RegInv (st : ConfigState) : Prop :=
  ∀ kv ∈ st.configurables, ConfigurableOk kv.2

-- ===================================================================== --
-- example callables and registry states (used by concrete theorems)     --
-- ===================================================================== --

/-- The train callable of the test suite: train(optimizer, lr) with string
and integer defaults. -/
def trainFunc : Func :=
  ⟨"train", [⟨"optimizer", some (Val.vstr "adam")⟩, ⟨"lr", some (Val.vint 1)⟩]⟩

/-- A second, distinct callable deriving the same default identifier. -/
def trainClash : Func := ⟨"train", [⟨"x", some Val.vnone⟩]⟩

/-- The registry after registering trainFunc with derived ids. -/
def trainSt : ConfigState := (register ConfigState.init trainFunc none none).1

/-- trainSt after setting the optimizer parameter by configuration. -/
def trainCfgSt : ConfigState :=
  (Config.set trainSt [("train.optimizer", Val.vstr "sgd")]).1

/-- The Configurable record stored for train after trainCfgSt is reset. -/
def trainResetC : Configurable :=
  ⟨trainFunc, "train", "train", true, some [], some [], none, 0⟩

/-- A callable registered under namespace myspace with explicit cid
alpha.f, so that its cid and nid differ. -/
def alphaFunc : Func := ⟨"f", [⟨"p", some Val.vnone⟩]⟩

/-- The registry holding alphaFunc under (cid alpha.f, nid myspace). -/
def alphaSt : ConfigState :=
  (register ConfigState.init alphaFunc (some "myspace") (some "alpha.f")).1

/-- alphaSt with an Instanced entry loaded through the set direction. -/
def alphaCfgSt : ConfigState :=
  (Config.set alphaSt [("@myspace.p", Val.vstr "alpha.f")]).1

/-- An instanced-target callable as in the counter example. -/
def counterFunc : Func := ⟨"counter", [⟨"step", some (Val.vint 1)⟩]⟩

/-- A consumer callable whose parameter will be bound to an Instanced
value targeting counterFunc. -/
def printCountFunc : Func := ⟨"print_count", [⟨"count", some Val.vnone⟩]⟩

/-- Registry with counterFunc and printCountFunc registered. -/
def instSt : ConfigState :=
  (register (register ConfigState.init counterFunc none none).1
    printCountFunc none none).1

/-- instSt after binding the count parameter to the Instanced counter. -/
def instCfgSt : ConfigState :=
  (Config.set instSt [("@print_count.count", Val.vstr "counter")]).1

/-- The Configurable record stored for print_count inside instCfgSt. -/
def printCountC : Configurable :=
  ⟨printCountFunc, "print_count", "print_count", true,
   some [("count", Val.vinst "counter" "counter")], some [], none, 0⟩

/-- The Configurable record stored for counter inside instCfgSt. -/
def counterC : Configurable :=
  ⟨counterFunc, "counter", "counter", true, some [], some [], none, 0⟩

/-- The registry state after the first proxy call of print_count. -/
def instCalledSt : ConfigState :=
  (call_proxy 3 instCfgSt "print_count" [] []).1

-- ===================================================================== --
-- helper lemmas: association lists                                      --
-- ===================================================================== --

theorem lookupStr_mem {α : Type} {m : List (String × α)} {k : String}
    {v : α} (h : lookupStr m k = some v) : (k, v) ∈ m := by
  induction m with
  | nil => simp [lookupStr] at h
  | cons kv rest ih =>
    rw [lookupStr] at h
    by_cases hk : kv.1 = k
    · rw [if_pos hk] at h
      have hv : kv.2 = v := Option.some.inj h
      have : kv = (k, v) := by
        cases kv
        simp at hk hv
        simp [hk, hv]
      rw [← this]
      exact List.mem_cons_self _ _
    · rw [if_neg hk] at h
      exact List.mem_cons_of_mem _ (ih h)

theorem lookupStr_insert_self {α : Type} (m : List (String × α))
    (k : String) (v : α) : lookupStr (insertStr m k v) k = some v := by
  induction m with
  | nil => simp [insertStr, lookupStr]
  | cons kv rest ih =>
    rw [insertStr]
    by_cases hk : kv.1 = k
    · rw [if_pos hk, lookupStr, if_pos rfl]
    · rw [if_neg hk, lookupStr, if_neg hk, ih]

theorem lookupStr_insert_ne {α : Type} (m : List (String × α))
    (k n : String) (v : α) (h : k ≠ n) :
    lookupStr (insertStr m k v) n = lookupStr m n := by
  induction m with
  | nil => simp [insertStr, lookupStr, h]
  | cons kv rest ih =>
    rw [insertStr]
    by_cases hk : kv.1 = k
    · rw [if_pos hk, lookupStr, if_neg h, lookupStr, hk, if_neg h]
    · rw [if_neg hk, lookupStr, lookupStr, ih]

theorem lookupStr_eq_none {α : Type} {m : List (String × α)} {k : String}
    (h : k ∉ m.map Prod.fst) : lookupStr m k = none := by
  induction m with
  | nil => simp [lookupStr]
  | cons kv rest ih =>
    rw [List.map_cons, List.mem_cons] at h
    push_neg at h
    rw [lookupStr, if_neg (fun hh => h.1 hh.symm)]
    exact ih h.2

theorem lookupStr_map {α β : Type} (m : List (String × α))
    (f : α → β) (k : String) :
    lookupStr (m.map (fun kv => (kv.1, f kv.2))) k =
      (lookupStr m k).map f := by
  induction m with
  | nil => simp [lookupStr]
  | cons kv rest ih =>
    by_cases hk : kv.1 = k
    · simp [lookupStr, hk]
    · simp [lookupStr, hk, ih]

theorem lookup_mergeKw (kw cfg : Cfg) (n : String)
    (hnd : (kw.map Prod.fst).Nodup) :
    lookupStr (mergeKw cfg kw) n =
      match lookupStr kw n with
      | some v => some v
      | none => lookupStr cfg n := by
  induction kw generalizing cfg with
  | nil => simp [mergeKw, lookupStr]
  | cons kv rest ih =>
    simp at hnd
    have step : mergeKw cfg (kv :: rest) = mergeKw (insertStr cfg kv.1 kv.2) rest := by
      simp [mergeKw]
    rw [step, ih _ hnd.2]
    by_cases hk : kv.1 = n
    · subst hk
      have hnone : lookupStr rest kv.1 = none := by
        apply lookupStr_eq_none
        intro hmem
        obtain ⟨x, hx, hfst⟩ := List.mem_map.mp hmem
        cases x
        simp at hfst
        subst hfst
        exact hnd.1 _ hx
      rw [lookupStr, if_pos rfl, hnone, lookupStr_insert_self]
    · rw [lookupStr, if_neg hk, lookupStr_insert_ne _ _ _ _ hk]

theorem mergeKw_isSome (kw cfg : Cfg) (n : String)
    (h : (lookupStr cfg n).isSome) :
    (lookupStr (mergeKw cfg kw) n).isSome := by
  induction kw generalizing cfg with
  | nil => simpa [mergeKw] using h
  | cons kv rest ih =>
    have step : mergeKw cfg (kv :: rest) = mergeKw (insertStr cfg kv.1 kv.2) rest := by
      simp [mergeKw]
    rw [step]
    apply ih
    by_cases hk : kv.1 = n
    · subst hk
      simp [lookupStr_insert_self]
    · rwa [lookupStr_insert_ne _ _ _ _ hk]

-- ===================================================================== --
-- helper lemmas: kwargs resolution loop                                 --
-- ===================================================================== --

theorem mkKwargsAux_step (inst : ConfigState → Val → ConfigState × Except Err Val)
    (st : ConfigState) (k : String) (ks : List String) (ns gl acc : Cfg) :
    mkKwargsAux inst st (k :: ks) ns gl acc =
      match specSelect ns gl k with
      | none => mkKwargsAux inst st ks ns gl acc
      | some v =>
        match inst st v with
        | (st1, .ok v1) => mkKwargsAux inst st1 ks ns gl (acc ++ [(k, v1)])
        | (st1, .error e) => (st1, .error e) := rfl

theorem mkKwargsAux_step_none
    (inst : ConfigState → Val → ConfigState × Except Err Val)
    (st : ConfigState) (k : String) (ks : List String) (ns gl acc : Cfg)
    (h : specSelect ns gl k = none) :
    mkKwargsAux inst st (k :: ks) ns gl acc =
      mkKwargsAux inst st ks ns gl acc := by
  rw [mkKwargsAux_step, h]

theorem mkKwargsAux_step_ok
    (inst : ConfigState → Val → ConfigState × Except Err Val)
    (st st1 : ConfigState) (k : String) (ks : List String) (ns gl acc : Cfg)
    (v v1 : Val) (h : specSelect ns gl k = some v)
    (hinst : inst st v = (st1, .ok v1)) :
    mkKwargsAux inst st (k :: ks) ns gl acc =
      mkKwargsAux inst st1 ks ns gl (acc ++ [(k, v1)]) := by
  rw [mkKwargsAux_step, h]
  show (match inst st v with
        | (st1, .ok v1) => mkKwargsAux inst st1 ks ns gl (acc ++ [(k, v1)])
        | (st1, .error e) => (st1, .error e)) = _
  rw [hinst]

theorem mkKwargsAux_step_err
    (inst : ConfigState → Val → ConfigState × Except Err Val)
    (st st1 : ConfigState) (k : String) (ks : List String) (ns gl acc : Cfg)
    (v : Val) (e : Err) (h : specSelect ns gl k = some v)
    (hinst : inst st v = (st1, .error e)) :
    mkKwargsAux inst st (k :: ks) ns gl acc = (st1, .error e) := by
  rw [mkKwargsAux_step, h]
  show (match inst st v with
        | (st1, .ok v1) => mkKwargsAux inst st1 ks ns gl (acc ++ [(k, v1)])
        | (st1, .error e) => (st1, .error e)) = _
  rw [hinst]

theorem mkKwargsAux_pure (inst : ConfigState → Val → ConfigState × Except Err Val)
    (hid : ∀ s v, v.isInst = false → inst s v = (s, .ok v))
    (ns gl : Cfg)
    (ks : List String)
    (hv : ∀ k v, k ∈ ks → specSelect ns gl k = some v → v.isInst = false) :
    ∀ st acc, mkKwargsAux inst st ks ns gl acc =
      (st, .ok (acc ++
        ks.filterMap (fun k => (specSelect ns gl k).map (fun v => (k, v))))) := by
  induction ks with
  | nil => intro st acc; simp [mkKwargsAux]
  | cons k ks ih =>
    intro st acc
    have ih2 := ih (fun k' v hk' hs => hv k' v (List.mem_cons_of_mem _ hk') hs)
    cases hsel : specSelect ns gl k with
    | none =>
      rw [mkKwargsAux_step_none inst st k ks ns gl acc hsel, ih2]
      simp [List.filterMap_cons, hsel]
    | some v =>
      have hni : v.isInst = false := hv k v (List.mem_cons_self _ _) hsel
      rw [mkKwargsAux_step_ok inst st st k ks ns gl acc v v hsel (hid st v hni),
        ih2]
      simp [List.filterMap_cons, hsel]

theorem lookup_filterMap_sel (ns gl : Cfg) (ks : List String) (p : String) :
    lookupStr (ks.filterMap (fun k => (specSelect ns gl k).map (fun v => (k, v)))) p =
      if p ∈ ks then specSelect ns gl p else none := by
  induction ks with
  | nil => simp [lookupStr]
  | cons k ks ih =>
    by_cases hk : k = p
    · subst hk
      cases hsel : specSelect ns gl k with
      | none =>
        rw [List.filterMap_cons]
        simp only [hsel, Option.map_none']
        rw [ih]
        by_cases hmem : k ∈ ks
        · simp [hmem, hsel]
        · simp [hmem, hsel]
      | some v =>
        rw [List.filterMap_cons]
        simp only [hsel, Option.map_some']
        simp [lookupStr, List.mem_cons, hsel]
    · have hpk : ¬p = k := fun h => hk h.symm
      cases hsel : specSelect ns gl k with
      | none =>
        rw [List.filterMap_cons]
        simp only [hsel, Option.map_none']
        rw [ih]
        by_cases hmem : p ∈ ks
        · simp [hmem, hpk]
        · simp [hmem, hpk]
      | some v =>
        rw [List.filterMap_cons]
        simp only [hsel, Option.map_some']
        rw [lookupStr, if_neg hk, ih]
        by_cases hmem : p ∈ ks
        · simp [hmem, hpk]
        · simp [hmem, hpk]

theorem mkKwargsAux_inst_point
    (inst : ConfigState → Val → ConfigState × Except Err Val)
    (hid : ∀ s v, v.isInst = false → inst s v = (s, .ok v))
    (ns gl : Cfg) (p : String) (vp : Val)
    (hvp : specSelect ns gl p = some vp)
    (hother : ∀ k v, k ≠ p → specSelect ns gl k = some v → v.isInst = false) :
    ∀ ks st acc, p ∈ ks → ks.Nodup →
      (mkKwargsAux inst st ks ns gl acc).1 = (inst st vp).1 ∧
      (∀ kwres, (mkKwargsAux inst st ks ns gl acc).2 = .ok kwres →
        ∃ v1, (inst st vp).2 = .ok v1) := by
  intro ks
  induction ks with
  | nil => intro st acc hmem; exact absurd hmem (List.not_mem_nil _)
  | cons k ks ih =>
    intro st acc hmem hnd
    rw [List.nodup_cons] at hnd
    by_cases hk : k = p
    · subst hk
      cases hinst : inst st vp with
      | mk st1 r =>
        cases r with
        | ok v1 =>
          have hpure := mkKwargsAux_pure inst hid ns gl ks
            (fun k' v hk' hs => hother k' v (fun he => hnd.1 (he ▸ hk')) hs)
            st1 (acc ++ [(k, v1)])
          rw [mkKwargsAux_step_ok inst st st1 k ks ns gl acc vp v1 hvp hinst,
            hpure]
          exact ⟨rfl, fun kwres _ => ⟨v1, rfl⟩⟩
        | error e =>
          rw [mkKwargsAux_step_err inst st st1 k ks ns gl acc vp e hvp hinst]
          exact ⟨rfl, fun kwres hok => by simp at hok⟩
    · have hpm : p ∈ ks := by
        cases List.mem_cons.mp hmem with
        | inl h => exact absurd h.symm hk
        | inr h => exact h
      cases hsel : specSelect ns gl k with
      | none =>
        rw [mkKwargsAux_step_none inst st k ks ns gl acc hsel]
        exact ih st acc hpm hnd.2
      | some v =>
        have hni : v.isInst = false := hother k v hk hsel
        rw [mkKwargsAux_step_ok inst st st k ks ns gl acc v v hsel (hid st v hni)]
        exact ih st (acc ++ [(k, v)]) hpm hnd.2

-- ===================================================================== --
-- helper lemmas: updateCfg and call_proxy basics                        --
-- ===================================================================== --

theorem lookupStr_updateCfg_self (st : ConfigState) (cid : String)
    (f : Configurable → Configurable) :
    lookupStr (updateCfg st cid f).configurables cid =
      (lookupStr st.configurables cid).map f := by
  show lookupStr (st.configurables.map _) cid = _
  induction st.configurables with
  | nil => simp [lookupStr]
  | cons kv rest ih =>
    by_cases hk : kv.1 = cid
    · simp [lookupStr, hk]
    · simp [lookupStr, hk, ih]

theorem lookupStr_updateCfg_ne (st : ConfigState) (cid q : String)
    (f : Configurable → Configurable) (h : q ≠ cid) :
    lookupStr (updateCfg st cid f).configurables q =
      lookupStr st.configurables q := by
  show lookupStr (st.configurables.map _) q = _
  induction st.configurables with
  | nil => simp [lookupStr]
  | cons kv rest ih =>
    by_cases hk : kv.1 = cid
    · rw [List.map_cons, if_pos hk]
      rw [lookupStr, lookupStr, hk]
      rw [if_neg (fun hh : cid = q => h hh.symm),
        if_neg (fun hh : cid = q => h hh.symm)]
      exact ih
    · rw [List.map_cons, if_neg hk]
      rw [lookupStr, lookupStr]
      by_cases hq : kv.1 = q
      · rw [if_pos hq, if_pos hq]
      · rw [if_neg hq, if_neg hq]; exact ih

theorem updateCfg_namespace_configs (st : ConfigState) (cid : String)
    (f : Configurable → Configurable) :
    (updateCfg st cid f).namespace_configs = st.namespace_configs := rfl

theorem call_proxy_zero (st : ConfigState) (cid : String) (pos : List Val)
    (kw : Cfg) : call_proxy 0 st cid pos kw = (st, .error .outOfFuel) := rfl

/-- Instanced.try_instantiate at a given recursion budget: an Instanced
value is replaced by the result of invoking the proxy of its target with
no arguments; any other value passes through unchanged.  This is the
instantiation function that call_proxy hands to the kwargs loop. -/
def try_instantiate (fuel : Nat) (s : ConfigState) (v : Val) :
    ConfigState × Except Err Val :=
  match v with
  | .vinst t _ =>
    (match call_proxy fuel s t [] [] with
     | (s1, .ok r) => (s1, .ok r.2)
     | (s1, .error e) => (s1, .error e))
  | _ => (s, .ok v)

theorem try_instantiate_pure (fuel : Nat) (s : ConfigState) (v : Val)
    (h : v.isInst = false) : try_instantiate fuel s v = (s, .ok v) := by
  cases v <;> first | rfl | simp [Val.isInst] at h

theorem call_proxy_succ (fuel : Nat) (st : ConfigState) (cid : String)
    (pos : List Val) (kw : Cfg) :
    call_proxy (fuel + 1) st cid pos kw =
      match lookupStr st.configurables cid with
      | none => (st, .error (.unknownCid cid))
      | some c =>
        let resolved : ConfigState × Except Err Cfg :=
          if c.is_dirty then
            match c.last_ns_config, c.last_global_config with
            | some ns, some gl =>
              (match mkKwargsAux (try_instantiate fuel) st
                  (configurable_param_names c.func) ns gl [] with
               | (st1, .ok kwargs) =>
                 (updateCfg st1 cid
                    (fun c0 =>
                      { c0 with
                        is_dirty := false,
                        last_ns_config := none,
                        last_global_config := none,
                        cached_kwargs := some kwargs }),
                  .ok kwargs)
               | (st1, .error e) => (st1, .error e))
            | _, _ => (st, .error .notReconfigured)
          else (st, .ok (c.cached_kwargs.getD []))
        match resolved with
        | (st1, .error e) => (st1, .error e)
        | (st1, .ok kwargs) =>
          match bindCall c.func.params pos (mergeKw kwargs kw) with
          | .error e => (st1, .error (.callError e))
          | .ok env =>
            let n :=
              ((lookupStr st1.configurables cid).map
                Configurable.invoke_count).getD 0
            (updateCfg st1 cid
               (fun c0 => { c0 with invoke_count := c0.invoke_count + 1 }),
             .ok (env, .vret cid n)) := rfl

theorem call_proxy_succ_none (fuel : Nat) (st : ConfigState) (cid : String)
    (pos : List Val) (kw : Cfg)
    (hl : lookupStr st.configurables cid = none) :
    call_proxy (fuel + 1) st cid pos kw = (st, .error (.unknownCid cid)) := by
  rw [call_proxy_succ, hl]

theorem call_proxy_succ_clean (fuel : Nat) (st : ConfigState) (cid : String)
    (pos : List Val) (kw : Cfg) (c : Configurable)
    (hl : lookupStr st.configurables cid = some c)
    (hd : c.is_dirty = false) :
    call_proxy (fuel + 1) st cid pos kw =
      match bindCall c.func.params pos (mergeKw (c.cached_kwargs.getD []) kw) with
      | .error e => (st, .error (.callError e))
      | .ok env =>
        (updateCfg st cid
           (fun c0 => { c0 with invoke_count := c0.invoke_count + 1 }),
         .ok (env, .vret cid c.invoke_count)) := by
  rw [call_proxy_succ]
  simp only [hl, hd, Bool.false_eq_true, if_false]
  cases hb : bindCall c.func.params pos (mergeKw (c.cached_kwargs.getD []) kw) with
  | error e => rfl
  | ok env => simp only [hl, Option.map_some', Option.getD_some]

theorem call_proxy_succ_dirty (fuel : Nat) (st : ConfigState) (cid : String)
    (pos : List Val) (kw : Cfg) (c : Configurable) (ns gl : Cfg)
    (hl : lookupStr st.configurables cid = some c)
    (hd : c.is_dirty = true)
    (hns : c.last_ns_config = some ns)
    (hgl : c.last_global_config = some gl) :
    call_proxy (fuel + 1) st cid pos kw =
      match mkKwargsAux (try_instantiate fuel) st
          (configurable_param_names c.func) ns gl [] with
      | (st1, .ok kwargs) =>
        let st2 :=
          updateCfg st1 cid
            (fun c0 =>
              { c0 with
                is_dirty := false,
                last_ns_config := none,
                last_global_config := none,
                cached_kwargs := some kwargs })
        (match bindCall c.func.params pos (mergeKw kwargs kw) with
         | .error e => (st2, .error (.callError e))
         | .ok env =>
           let n :=
             ((lookupStr st2.configurables cid).map
               Configurable.invoke_count).getD 0
           (updateCfg st2 cid
              (fun c0 => { c0 with invoke_count := c0.invoke_count + 1 }),
            .ok (env, .vret cid n)))
      | (st1, .error e) => (st1, .error e) := by
  rw [call_proxy_succ]
  simp only [hl, hd, if_true, hns, hgl]
  cases hmk : mkKwargsAux (try_instantiate fuel) st
      (configurable_param_names c.func) ns gl [] with
  | mk st1 r =>
    cases r with
    | ok kwargs => rfl
    | error e => rfl

theorem call_proxy_succ_dirty_nr (fuel : Nat) (st : ConfigState)
    (cid : String) (pos : List Val) (kw : Cfg) (c : Configurable)
    (hl : lookupStr st.configurables cid = some c)
    (hd : c.is_dirty = true)
    (hmiss : c.last_ns_config = none ∨ c.last_global_config = none) :
    call_proxy (fuel + 1) st cid pos kw = (st, .error .notReconfigured) := by
  rw [call_proxy_succ]
  simp only [hl, hd, if_true]
  cases hns : c.last_ns_config with
  | none => cases hgl : c.last_global_config <;> rfl
  | some ns =>
    cases hgl : c.last_global_config with
    | none => rfl
    | some gl =>
      cases hmiss with
      | inl h => rw [hns] at h; exact absurd h (by simp)
      | inr h => rw [hgl] at h; exact absurd h (by simp)

theorem specSelect_noInst (ns gl : Cfg) (hn : noInstCfg ns = true)
    (hg : noInstCfg gl = true) :
    ∀ k v, specSelect ns gl k = some v → v.isInst = false := by
  intro k v hsel
  rw [specSelect] at hsel
  rw [noInstCfg, List.all_eq_true] at hn hg
  cases hlk : lookupStr ns k with
  | some w =>
    rw [hlk] at hsel
    have hmem := lookupStr_mem hlk
    have := hn _ hmem
    simp at this
    cases hsel
    exact this
  | none =>
    rw [hlk] at hsel
    have hmem := lookupStr_mem hsel
    have := hg _ hmem
    simp at this
    exact this

theorem call_proxy_clean_effects (fuel : Nat) (st : ConfigState)
    (cid : String) (pos : List Val) (kw : Cfg) (c : Configurable)
    (hl : lookupStr st.configurables cid = some c)
    (hd : c.is_dirty = false) :
    (∀ q, q ≠ cid →
      lookupStr (call_proxy fuel st cid pos kw).1.configurables q =
        lookupStr st.configurables q) ∧
    ((lookupStr (call_proxy fuel st cid pos kw).1.configurables cid).map
        Configurable.cached_kwargs = some c.cached_kwargs) ∧
    ((lookupStr (call_proxy fuel st cid pos kw).1.configurables cid).map
        Configurable.is_dirty = some false) := by
  cases fuel with
  | zero =>
    rw [call_proxy_zero]
    exact ⟨fun q _ => rfl, by simp [hl], by simp [hl, hd]⟩
  | succ fuel =>
    rw [call_proxy_succ_clean fuel st cid pos kw c hl hd]
    cases hb : bindCall c.func.params pos (mergeKw (c.cached_kwargs.getD []) kw) with
    | error e => exact ⟨fun q _ => rfl, by simp [hl], by simp [hl, hd]⟩
    | ok env =>
      refine ⟨fun q hq => lookupStr_updateCfg_ne st cid q _ hq, ?_, ?_⟩
      · rw [lookupStr_updateCfg_self, hl]; rfl
      · rw [lookupStr_updateCfg_self, hl]
        simp [hd]

theorem call_target (fuel : Nat) (st : ConfigState) (t : String)
    (tc : Configurable)
    (hl : lookupStr st.configurables t = some tc)
    (hres : tc.is_dirty = true →
      ∃ tns tgl, tc.last_ns_config = some tns ∧
        tc.last_global_config = some tgl ∧
        noInstCfg tns = true ∧ noInstCfg tgl = true) :
    (∀ q, q ≠ t →
      lookupStr (call_proxy fuel st t [] []).1.configurables q =
        lookupStr st.configurables q) ∧
    (∀ r, (call_proxy fuel st t [] []).2 = .ok r →
      (lookupStr (call_proxy fuel st t [] []).1.configurables t).map
          Configurable.invoke_count = some (tc.invoke_count + 1)) := by
  cases fuel with
  | zero =>
    rw [call_proxy_zero]
    exact ⟨fun q _ => rfl, fun r h => by simp at h⟩
  | succ fuel =>
    cases hd : tc.is_dirty with
    | false =>
      rw [call_proxy_succ_clean fuel st t [] [] tc hl hd]
      cases hb : bindCall tc.func.params [] (mergeKw (tc.cached_kwargs.getD []) []) with
      | error e => exact ⟨fun q _ => rfl, fun r h => by simp at h⟩
      | ok env =>
        refine ⟨fun q hq => lookupStr_updateCfg_ne st t q _ hq, fun r _ => ?_⟩
        rw [lookupStr_updateCfg_self, hl]
        rfl
    | true =>
      obtain ⟨tns, tgl, h1, h2, h3, h4⟩ := hres hd
      rw [call_proxy_succ_dirty fuel st t [] [] tc tns tgl hl hd h1 h2]
      rw [mkKwargsAux_pure (try_instantiate fuel)
        (try_instantiate_pure fuel) tns tgl (configurable_param_names tc.func)
        (fun k v _ hs => specSelect_noInst tns tgl h3 h4 k v hs) st []]
      cases hb : bindCall tc.func.params []
          (mergeKw (List.filterMap
            (fun k => Option.map (fun v => (k, v)) (specSelect tns tgl k))
            (configurable_param_names tc.func)) []) with
      | error e =>
        simp only [List.nil_append, hb]
        exact ⟨fun q hq => lookupStr_updateCfg_ne st t q _ hq,
          fun r h => by simp at h⟩
      | ok env =>
        simp only [List.nil_append, hb]
        constructor
        · intro q hq
          rw [lookupStr_updateCfg_ne _ _ _ _ hq, lookupStr_updateCfg_ne _ _ _ _ hq]
        · intro r _
          rw [lookupStr_updateCfg_self, lookupStr_updateCfg_self, hl]
          rfl

theorem try_instantiate_inst_fst (fuel : Nat) (s : ConfigState)
    (t tnid : String) :
    (try_instantiate fuel s (.vinst t tnid)).1 =
      (call_proxy fuel s t [] []).1 := by
  rw [try_instantiate]
  cases h : call_proxy fuel s t [] [] with
  | mk s1 r => cases r <;> rfl

theorem try_instantiate_inst_ok (fuel : Nat) (s : ConfigState)
    (t tnid : String) (v1 : Val)
    (h : (try_instantiate fuel s (.vinst t tnid)).2 = .ok v1) :
    ∃ r, (call_proxy fuel s t [] []).2 = .ok r := by
  rw [try_instantiate] at h
  cases hc : call_proxy fuel s t [] [] with
  | mk s1 r =>
    cases r with
    | ok rr => exact ⟨rr, rfl⟩
    | error e => rw [hc] at h; simp at h

/-- C5: for a Configurable resolved while dirty whose parameter p selects
an Instanced value targeting t (every other selected value being plain, the
target itself resolvable without further Instanced chains), a successful
first proxy call invokes the target exactly once (its invocation count
rises by exactly one) and leaves the owner clean; and any call of a clean
owner leaves the target entry and the cached kwargs untouched, so every
call before the next set or update reuses the same cached materialized
value.  A new set, update or reset re-establishes the hypotheses with the
exact same shape, so each cycle triggers exactly one fresh invocation. -/
theorem c5_instanced_once_per_cycle
    (fuel : Nat) (st st1 : ConfigState) (cid t tnid p : String)
    (c tc : Configurable) (ns gl : Cfg) (pos : List Val) (kw : Cfg)
    (r1 : Cfg × Val)
    (h1 : lookupStr st.configurables cid = some c)
    (h2 : c.is_dirty = true)
    (h3 : c.last_ns_config = some ns)
    (h4 : c.last_global_config = some gl)
    (h5 : specSelect ns gl p = some (.vinst t tnid))
    (h6 : ∀ k v, k ≠ p → specSelect ns gl k = some v → v.isInst = false)
    (h7 : p ∈ configurable_param_names c.func)
    (h8 : (configurable_param_names c.func).Nodup)
    (h9 : t ≠ cid)
    (h10 : lookupStr st.configurables t = some tc)
    (h11 : tc.is_dirty = true →
      ∃ tns tgl, tc.last_ns_config = some tns ∧
        tc.last_global_config = some tgl ∧
        noInstCfg tns = true ∧ noInstCfg tgl = true)
    (h12 : call_proxy fuel st cid pos kw = (st1, .ok r1)) :
    ((lookupStr st1.configurables t).map Configurable.invoke_count =
      some (tc.invoke_count + 1)) ∧
    ((lookupStr st1.configurables cid).map Configurable.is_dirty =
      some false) ∧
    (∀ st2 c2 fuel2 pos2 kw2, lookupStr st2.configurables cid = some c2 →
      c2.is_dirty = false →
      lookupStr (call_proxy fuel2 st2 cid pos2 kw2).1.configurables t =
        lookupStr st2.configurables t ∧
      (lookupStr (call_proxy fuel2 st2 cid pos2 kw2).1.configurables cid).map
        Configurable.cached_kwargs = some c2.cached_kwargs) := by
  have later : ∀ st2 c2 fuel2 pos2 kw2,
      lookupStr st2.configurables cid = some c2 → c2.is_dirty = false →
      lookupStr (call_proxy fuel2 st2 cid pos2 kw2).1.configurables t =
        lookupStr st2.configurables t ∧
      (lookupStr (call_proxy fuel2 st2 cid pos2 kw2).1.configurables cid).map
        Configurable.cached_kwargs = some c2.cached_kwargs := by
    intro st2 c2 fuel2 pos2 kw2 hl2 hd2
    obtain ⟨heff1, heff2, _⟩ :=
      call_proxy_clean_effects fuel2 st2 cid pos2 kw2 c2 hl2 hd2
    exact ⟨heff1 t h9, heff2⟩
  cases fuel with
  | zero => rw [call_proxy_zero] at h12; simp at h12
  | succ fuel =>
    rw [call_proxy_succ_dirty fuel st cid pos kw c ns gl h1 h2 h3 h4] at h12
    obtain ⟨hsp1, hsp2⟩ :=
      mkKwargsAux_inst_point (try_instantiate fuel)
        (try_instantiate_pure fuel) ns gl p (.vinst t tnid) h5 h6
        (configurable_param_names c.func) st [] h7 h8
    cases hmk : mkKwargsAux (try_instantiate fuel) st
        (configurable_param_names c.func) ns gl [] with
    | mk stm rm =>
      rw [hmk] at h12 hsp1 hsp2
      cases rm with
      | error e => simp at h12
      | ok kwargs =>
        simp only at h12 hsp1 hsp2
        obtain ⟨v1, hv1⟩ := hsp2 kwargs rfl
        obtain ⟨rt, hrt⟩ := try_instantiate_inst_ok fuel st t tnid v1 hv1
        have hstm : stm = (call_proxy fuel st t [] []).1 := by
          rw [← try_instantiate_inst_fst fuel st t tnid, hsp1]
        obtain ⟨htq, htcount⟩ := call_target fuel st t tc h10 h11
        have hcount : (lookupStr stm.configurables t).map
            Configurable.invoke_count = some (tc.invoke_count + 1) := by
          rw [hstm]; exact htcount rt hrt
        have hcid_stm : lookupStr stm.configurables cid =
            lookupStr st.configurables cid := by
          rw [hstm]; exact htq cid (fun h => h9 h.symm)
        cases hb : bindCall c.func.params pos (mergeKw kwargs kw) with
        | error e => rw [hb] at h12; simp at h12
        | ok env =>
          rw [hb] at h12
          simp only at h12
          have hst1 : st1 =
              updateCfg (updateCfg stm cid
                (fun c0 =>
                  { c0 with
                    is_dirty := false,
                    last_ns_config := none,
                    last_global_config := none,
                    cached_kwargs := some kwargs })) cid
                (fun c0 =>
                  { c0 with invoke_count := c0.invoke_count + 1 }) := by
            have := congrArg Prod.fst h12
            simp at this
            exact this.symm
          subst hst1
          refine ⟨?_, ?_, later⟩
          · rw [lookupStr_updateCfg_ne _ _ _ _ h9,
              lookupStr_updateCfg_ne _ _ _ _ h9]
            exact hcount
          · rw [lookupStr_updateCfg_self, lookupStr_updateCfg_self,
              hcid_stm, h1]
            rfl

-- ===================================================================== --
-- the dirty-state invariant across the public API                       --
-- ===================================================================== --

theorem mkKwargsAux_pres
    (inst : ConfigState → Val → ConfigState × Except Err Val)
    (P : ConfigState → Prop)
    (hinst : ∀ s v, P s →
      P (inst s v).1 ∧ (inst s v).2 ≠ .error .notReconfigured) :
    ∀ ks st ns gl acc, P st →
      P (mkKwargsAux inst st ks ns gl acc).1 ∧
      (mkKwargsAux inst st ks ns gl acc).2 ≠ .error .notReconfigured := by
  intro ks
  induction ks with
  | nil => intro st ns gl acc hP; exact ⟨hP, by simp [mkKwargsAux]⟩
  | cons k ks ih =>
    intro st ns gl acc hP
    cases hsel : specSelect ns gl k with
    | none =>
      rw [mkKwargsAux_step_none inst st k ks ns gl acc hsel]
      exact ih st ns gl acc hP
    | some v =>
      cases hi : inst st v with
      | mk st1 r =>
        cases r with
        | ok v1 =>
          rw [mkKwargsAux_step_ok inst st st1 k ks ns gl acc v v1 hsel hi]
          have hP1 : P st1 := by
            have := (hinst st v hP).1
            rw [hi] at this
            exact this
          exact ih st1 ns gl (acc ++ [(k, v1)]) hP1
        | error e =>
          rw [mkKwargsAux_step_err inst st st1 k ks ns gl acc v e hsel hi]
          refine ⟨?_, ?_⟩
          · have := (hinst st v hP).1
            rw [hi] at this
            exact this
          · have := (hinst st v hP).2
            rw [hi] at this
            simpa using this

theorem inv_updateCfg (st : ConfigState) (cid : String)
    (f : Configurable → Configurable)
    (hf : ∀ c, ConfigurableOk c → ConfigurableOk (f c))
    (h : RegInv st) : RegInv (updateCfg st cid f) := by
  intro kv hkv
  obtain ⟨kv0, h0, heq⟩ := List.mem_map.mp hkv
  by_cases hc : kv0.1 = cid
  · rw [if_pos hc] at heq
    rw [← heq]
    exact hf _ (h kv0 h0)
  · rw [if_neg hc] at heq
    rw [← heq]
    exact h kv0 h0

theorem call_proxy_inv : ∀ fuel st, RegInv st → ∀ cid pos kw,
    RegInv (call_proxy fuel st cid pos kw).1 ∧
    (call_proxy fuel st cid pos kw).2 ≠ .error .notReconfigured := by
  intro fuel
  induction fuel with
  | zero =>
    intro st h cid pos kw
    rw [call_proxy_zero]
    exact ⟨h, by simp⟩
  | succ fuel ih =>
    intro st h cid pos kw
    cases hl : lookupStr st.configurables cid with
    | none =>
      rw [call_proxy_succ_none fuel st cid pos kw hl]
      exact ⟨h, by simp⟩
    | some c =>
      cases hd : c.is_dirty with
      | false =>
        rw [call_proxy_succ_clean fuel st cid pos kw c hl hd]
        cases hb : bindCall c.func.params pos
            (mergeKw (c.cached_kwargs.getD []) kw) with
        | error e => exact ⟨h, by simp⟩
        | ok env =>
          refine ⟨inv_updateCfg st cid _ ?_ h, by simp⟩
          intro c0 hc0 hdd
          exact hc0 hdd
      | true =>
        have hOk : ConfigurableOk c := h (cid, c) (lookupStr_mem hl)
        obtain ⟨hnsS, hglS⟩ := hOk hd
        obtain ⟨ns, hns⟩ := Option.isSome_iff_exists.mp hnsS
        obtain ⟨gl, hgl⟩ := Option.isSome_iff_exists.mp hglS
        rw [call_proxy_succ_dirty fuel st cid pos kw c ns gl hl hd hns hgl]
        have hpres := mkKwargsAux_pres (try_instantiate fuel) RegInv
          (fun s v hP => by
            cases v with
            | vinst t tn =>
              rw [try_instantiate]
              cases hc2 : call_proxy fuel s t [] [] with
              | mk s1 r =>
                have hih := ih s hP t [] []
                rw [hc2] at hih
                cases r with
                | ok rr => exact ⟨hih.1, by simp⟩
                | error e =>
                  refine ⟨hih.1, ?_⟩
                  simpa using hih.2
            | vint n => exact ⟨hP, by simp [try_instantiate]⟩
            | vstr s2 => exact ⟨hP, by simp [try_instantiate]⟩
            | vnone => exact ⟨hP, by simp [try_instantiate]⟩
            | vfunc q => exact ⟨hP, by simp [try_instantiate]⟩
            | vret a n => exact ⟨hP, by simp [try_instantiate]⟩)
          (configurable_param_names c.func) st ns gl [] h
        cases hmk : mkKwargsAux (try_instantiate fuel) st
            (configurable_param_names c.func) ns gl [] with
        | mk stm rm =>
          rw [hmk] at hpres
          cases rm with
          | error e =>
            simp only
            exact ⟨hpres.1, by simpa using hpres.2⟩
          | ok kwargs =>
            simp only
            have hinv2 : RegInv (updateCfg stm cid
                (fun c0 =>
                  { c0 with
                    is_dirty := false,
                    last_ns_config := none,
                    last_global_config := none,
                    cached_kwargs := some kwargs })) := by
              refine inv_updateCfg stm cid _ ?_ hpres.1
              intro c0 _ hdd
              simp at hdd
            cases hb : bindCall c.func.params pos (mergeKw kwargs kw) with
            | error e => exact ⟨hinv2, by simp⟩
            | ok env =>
              refine ⟨inv_updateCfg _ cid _ ?_ hinv2, by simp⟩
              intro c0 hc0 hdd
              exact hc0 hdd

theorem inv_reconfigure_all (st : ConfigState) :
    RegInv (reconfigure_all st) := by
  intro kv hkv
  obtain ⟨kv0, h0, heq⟩ := List.mem_map.mp hkv
  rw [← heq]
  intro _
  constructor <;> simp

theorem inv_set (st : ConfigState) (flat : List (String × Val))
    (h : RegInv st) : RegInv (Config.set st flat).1 := by
  cases hfc : flat_config_to_namespace_configs st.configurables flat with
  | error e => simpa [Config.set, hfc] using h
  | ok nc =>
    have : (Config.set st flat).1 =
        reconfigure_all ⟨st.configurables, st.namespaces, nc⟩ := by
      simp [Config.set, hfc]
    rw [this]
    exact inv_reconfigure_all _

theorem inv_update (st : ConfigState) (flat : List (String × Val))
    (h : RegInv st) : RegInv (Config.update st flat).1 := by
  cases hfc : flat_config_to_namespace_configs st.configurables flat with
  | error e => simpa [Config.update, hfc] using h
  | ok nc =>
    have : (Config.update st flat).1 =
        reconfigure_all ⟨st.configurables, st.namespaces,
          mergeNsConfigs st.namespace_configs nc⟩ := by
      simp [Config.update, hfc]
    rw [this]
    exact inv_reconfigure_all _

theorem inv_register (st : ConfigState) (f : Func)
    (a b : Option String) (h : RegInv st) :
    RegInv (register st f a b).1 := by
  cases hmk : mkConfigurable f a b with
  | error e => simpa [register, hmk] using h
  | ok c =>
    have hdisj : (register st f a b).1.configurables = st.configurables ∨
        (register st f a b).1.configurables = st.configurables ++
          [(c.cid,
            { c with
              is_dirty := true,
              last_ns_config :=
                some ((lookupStr st.namespace_configs c.nid).getD []),
              last_global_config :=
                some ((lookupStr st.namespace_configs "*").getD []) })] := by
      cases hlo : lookupStr st.namespaces c.nid with
      | some ns =>
        by_cases hct : c.cid ∈ ns.cids
        · left; simp [register, hmk, hlo, hct]
        · cases hlc : lookupStr st.configurables c.cid with
          | some x => left; simp [register, hmk, hlo, hct, hlc]
          | none => right; simp [register, hmk, hlo, hct, hlc]
      | none =>
        cases hlc : lookupStr st.configurables c.cid with
        | some x => left; simp [register, hmk, hlo, hlc]
        | none => right; simp [register, hmk, hlo, hlc]
    intro kv hkv
    cases hdisj with
    | inl he => rw [he] at hkv; exact h kv hkv
    | inr he =>
      rw [he, List.mem_append] at hkv
      cases hkv with
      | inl hmem => exact h kv hmem
      | inr hmem =>
        rw [List.mem_singleton] at hmem
        rw [hmem]
        intro _
        constructor <;> simp

theorem reach_inv : ∀ st, Reach st → RegInv st := by
  intro st h
  induction h with
  | init => intro kv hkv; simp [ConfigState.init] at hkv
  | reg st f a b _ ih => exact inv_register st f a b ih
  | set st flat _ ih => exact inv_set st flat ih
  | upd st flat _ ih => exact inv_update st flat ih
  | rst st _ ih => exact inv_set st [] ih
  | call st fuel cid pos kw _ ih =>
    exact (call_proxy_inv fuel st ih cid pos kw).1

-- ===================================================================== --
-- claim theorems                                                        --
-- ===================================================================== --

/-- C9: through the public API (registration, set, update, reset and proxy
invocation in any order), the NotReconfigured branch of
_make_defaults_func is unreachable: for every reachable registry state,
invoking any proxy never produces the NotReconfigured error, because
registration primes every new Configurable, every set/update/reset
re-primes all of them, and the pending configurations are dropped exactly
when the dirty flag is cleared. -/
theorem c9_not_reconfigured_unreachable (st : ConfigState) (fuel : Nat)
    (cid : String) (pos : List Val) (kw : Cfg) (h : Reach st) :
    (call_proxy fuel st cid pos kw).2 ≠ .error .notReconfigured :=
  (call_proxy_inv fuel st (reach_inv st h) cid pos kw).2

/-- Witness for C9 at a concrete reachable state and call. -/
theorem c9_witness :
    (call_proxy 1 (register ConfigState.init trainFunc none none).1
      "train" [] []).2 ≠ .error .notReconfigured :=
  c9_not_reconfigured_unreachable _ 1 "train" [] []
    (Reach.reg ConfigState.init trainFunc none none Reach.init)

/-- C4: set and update parse and validate the whole flat configuration
before any internal state is replaced, so a failing call leaves the
registry state, including every pending configuration of every
Configurable, exactly as it was. -/
theorem c4_set_update_atomic :
    (∀ st flat e, (Config.set st flat).2 = some e →
      (Config.set st flat).1 = st) ∧
    (∀ st flat e, (Config.update st flat).2 = some e →
      (Config.update st flat).1 = st) := by
  constructor
  · intro st flat e h
    cases hfc : flat_config_to_namespace_configs st.configurables flat with
    | error e2 => simp [Config.set, hfc]
    | ok nc => simp [Config.set, hfc] at h
  · intro st flat e h
    cases hfc : flat_config_to_namespace_configs st.configurables flat with
    | error e2 => simp [Config.update, hfc]
    | ok nc => simp [Config.update, hfc] at h

/-- Witness for C4: a flat map with an instanced entry referencing an
unregistered configurable makes both set and update fail and leave the
fresh registry state untouched. -/
theorem c4_witness :
    ((Config.set ConfigState.init [("@a.b", Val.vstr "zzz")]).2 =
        some (Err.unknownConfigurable "@a.b" "zzz") ∧
      (Config.set ConfigState.init [("@a.b", Val.vstr "zzz")]).1 =
        ConfigState.init) ∧
    ((Config.update ConfigState.init [("@a.b", Val.vstr "zzz")]).2 =
        some (Err.unknownConfigurable "@a.b" "zzz") ∧
      (Config.update ConfigState.init [("@a.b", Val.vstr "zzz")]).1 =
        ConfigState.init) :=
  ⟨⟨by decide,
    c4_set_update_atomic.1 ConfigState.init [("@a.b", Val.vstr "zzz")]
      (Err.unknownConfigurable "@a.b" "zzz") (by decide)⟩,
   ⟨by decide,
    c4_set_update_atomic.2 ConfigState.init [("@a.b", Val.vstr "zzz")]
      (Err.unknownConfigurable "@a.b" "zzz") (by decide)⟩⟩

/-- C3 fails on the code: with a Configurable whose cid (alpha.f) differs
from its nid (myspace) and an Instanced entry referencing it, the save
direction emits the nid string as the persisted value while the load
direction resolves that string in the cid-keyed table, so feeding the
saved flat map back through set fails with the unknown-configurable error
instead of reproducing the state.  This theorem evaluates the code at the
failing input: the internal state, the saved flat map, and the failing
reload. -/
theorem c3_roundtrip_nid_bug :
    alphaCfgSt.namespace_configs =
      [("myspace", [("p", Val.vinst "alpha.f" "myspace")])] ∧
    namespace_configs_to_flat_config alphaCfgSt.namespace_configs =
      [("@myspace.p", Val.vstr "myspace")] ∧
    Config.set alphaCfgSt
      (namespace_configs_to_flat_config alphaCfgSt.namespace_configs) =
      (alphaCfgSt, some (Err.unknownConfigurable "@myspace.p" "myspace")) :=
  ⟨by decide, by decide, by decide⟩

/-- C6 counterexample: registering a second distinct callable that
derives the same default cid (and hence also the same default nid) fails,
but with the namespace duplicate-member error, not with the
duplicate-configurable error of the registry cid table. -/
theorem c6_counterexample :
    (register trainSt trainClash none none).2 = some Err.duplicateMember ∧
    some Err.duplicateMember ≠ some (Err.duplicateConfigurable "train") :=
  ⟨by decide, by decide⟩

/-- C6 amended: registering a second callable with an already-used derived
cid always fails, but the error kind depends on the namespace: when the
nid also collides (as it does for two callables deriving the same default
identifier, since the default cid and nid coincide), the namespace
membership check fires first and the failure is the duplicate-member
error with the state unchanged; the duplicate-configurable error of the
registry cid table is raised only when the cid is taken while the
namespace is fresh. -/
theorem c6_amended :
    (∀ st f c ns0, mkConfigurable f none none = .ok c →
      lookupStr st.namespaces c.nid = some ns0 →
      c.cid ∈ ns0.cids →
      register st f none none = (st, some Err.duplicateMember)) ∧
    (∀ st f nsA cidA c, mkConfigurable f (some nsA) cidA = .ok c →
      lookupStr st.namespaces c.nid = none →
      (lookupStr st.configurables c.cid).isSome = true →
      (register st f (some nsA) cidA).2 =
        some (Err.duplicateConfigurable c.cid)) := by
  constructor
  · intro st f c ns0 hmk hlo hct
    simp [register, hmk, hlo, hct]
  · intro st f nsA cidA c hmk hlo hS
    obtain ⟨x, hx⟩ := Option.isSome_iff_exists.mp hS
    simp [register, hmk, hlo, hx]

/-- Witness for C6 amended at the concrete clash of the counterexample
and at an explicit fresh namespace. -/
theorem c6_witness :
    register trainSt trainClash none none =
      (trainSt, some Err.duplicateMember) ∧
    (register trainSt trainClash (some "other") none).2 =
      some (Err.duplicateConfigurable "train") :=
  ⟨c6_amended.1 trainSt trainClash
      ⟨trainClash, "train", "train", true, none, none, none, 0⟩
      ⟨"train", ["optimizer", "lr"], ["train"]⟩
      (by decide) (by decide) (by decide),
   c6_amended.2 trainSt trainClash "other" none
      ⟨trainClash, "train", "other", true, none, none, none, 0⟩
      (by decide) (by decide) (by decide)⟩

/-- C2 fails on the code: the proxy is a functools partial application
that binds every configured parameter as a keyword, so a positional call
that the original callable accepts (train with one positional optimizer
argument) is rejected by the proxy with a multiple-values error whenever
that parameter carries a configured value; the commented-out assertions
of the test suite exhibit exactly this. -/
theorem c2_counterexample :
    bindCall trainFunc.params [Val.vstr "radam"] [] =
      .ok [("optimizer", Val.vstr "radam"), ("lr", Val.vint 1)] ∧
    (call_proxy 2 trainCfgSt "train" [Val.vstr "radam"] []).2 =
      .error (.callError (.multipleValues "optimizer")) :=
  ⟨by decide, by decide⟩

/-- Witness for C5 at the counter example: after set binds the count
parameter of print_count to the Instanced counter, the first proxy call
leaves the counter invoked exactly once and print_count clean. -/
theorem c5_witness :
    ((lookupStr instCalledSt.configurables "counter").map
        Configurable.invoke_count = some 1) ∧
    ((lookupStr instCalledSt.configurables "print_count").map
        Configurable.is_dirty = some false) := by
  have h := c5_instanced_once_per_cycle 3 instCfgSt instCalledSt
    "print_count" "counter" "counter" "count" printCountC counterC
    [("count", Val.vinst "counter" "counter")] [] [] []
    ([("count", Val.vret "counter" 0)], Val.vret "print_count" 0)
    (by decide) (by decide) (by decide) (by decide) (by decide)
    (by
      intro k v hk hs
      have hne : ¬ (("count" : String) = k) := fun hh => hk hh.symm
      simp [specSelect, lookupStr, hne] at hs)
    (by decide) (by decide) (by decide) (by decide)
    (fun _ => ⟨[], [], rfl, rfl, rfl, rfl⟩)
    (by decide)
  exact ⟨h.1, h.2.1⟩

theorem segsAux_no_dot (l acc : List Char)
    (h : ∀ ch ∈ l, isWordChar ch = true) :
    segsAux l acc = [acc.reverse ++ l] := by
  induction l generalizing acc with
  | nil => simp [segsAux]
  | cons c cs ih =>
    have hcw : isWordChar c = true := h c (List.mem_cons_self _ _)
    have hcd : ¬(c = '.') := by
      intro he
      rw [he] at hcw
      exact absurd hcw (by decide)
    rw [segsAux, if_neg hcd, ih (c :: acc)
      (fun ch hch => h ch (List.mem_cons_of_mem _ hch))]
    simp

theorem rsplitDotAux_no_dot (l : List Char)
    (h : ∀ ch ∈ l, isWordChar ch = true) : rsplitDotAux l = none := by
  induction l with
  | nil => rfl
  | cons c cs ih =>
    have hcw : isWordChar c = true := h c (List.mem_cons_self _ _)
    have hcd : ¬(c = '.') := by
      intro he
      rw [he] at hcw
      exact absurd hcw (by decide)
    rw [rsplitDotAux, ih (fun ch hch => h ch (List.mem_cons_of_mem _ hch))]
    simp [hcd]

/-- C10: a flat-configuration key consisting of one bare word segment with
no dot (and not a keyword) passes key validation, because the namespace
part of the pattern is optional; set and update then fail when unpacking
the rsplit on the last dot into (namespace, param), an error kind outside
the error taxonomy of the spec, and the previous configuration state is
left unchanged. -/
theorem c10_bare_key_unpack_error (st : ConfigState) (v : Val)
    (key : String) (hne : key.data ≠ [])
    (hw : ∀ ch ∈ key.data, isWordChar ch = true)
    (hkw : pyKeywords.contains key = false) :
    validate_id key = .ok key ∧
    Config.set st [(key, v)] = (st, some (.unpackError key)) ∧
    Config.update st [(key, v)] = (st, some (.unpackError key)) := by
  have hseg : segs key.data = [key.data] := by
    rw [segs, segsAux_no_dot key.data [] hw]
    simp
  have hhead : strHeadIs key '@' = false := by
    rw [strHeadIs]
    cases hd : key.data with
    | nil => rfl
    | cons c rest =>
      have hcw : isWordChar c = true := hw c (by rw [hd]; exact List.mem_cons_self _ _)
      have : ¬(c = '@') := by
        intro he
        rw [he] at hcw
        exact absurd hcw (by decide)
      simp [this]
  have hmatch : matchKeyPattern key = true := by
    rw [matchKeyPattern]
    simp only [hhead, Bool.false_eq_true, if_false]
    rw [hseg, segsPatternOk, isWordSeg]
    simp only [List.all_eq_true, Bool.and_eq_true, decide_eq_true_eq]
    exact ⟨hne, hw⟩
  have hmkstr : String.mk key.data = key := rfl
  have hknot : key ∉ pyKeywords := by simpa using hkw
  have hany : (segs key.data).any
      (fun seg => pyKeywords.contains (String.mk seg)) = false := by
    rw [hseg]
    simp [hmkstr, hknot]
  have hvid : validate_id key = .ok key := by
    rw [validate_id]
    rw [if_neg (show ¬(matchKeyPattern key = false) by rw [hmatch]; decide)]
    rw [if_neg (show ¬((segs key.data).any
      (fun seg => pyKeywords.contains (String.mk seg)) = true) by
        rw [hany]; decide)]
  have hconv : ∀ cfgables, convert_for_load cfgables key v = .ok (key, v) := by
    intro cfgables
    unfold convert_for_load
    rw [hhead]
    simp
  have hrs : rsplitDot key = none := by
    rw [rsplitDot, rsplitDotAux_no_dot key.data hw]
  have hflat : ∀ cfgables,
      flat_config_to_namespace_configs cfgables [(key, v)] =
        .error (.unpackError key) := by
    intro cfgables
    rw [flat_config_to_namespace_configs, flatToNsAux]
    simp only [hconv, hvid, hrs]
  refine ⟨hvid, ?_, ?_⟩
  · rw [Config.set, hflat]
  · rw [Config.update, hflat]

/-- Witness for C10 at the bare key param. -/
theorem c10_witness :
    validate_id "param" = .ok "param" ∧
    Config.set ConfigState.init [("param", Val.vnone)] =
      (ConfigState.init, some (.unpackError "param")) ∧
    Config.update ConfigState.init [("param", Val.vnone)] =
      (ConfigState.init, some (.unpackError "param")) :=
  c10_bare_key_unpack_error ConfigState.init Val.vnone "param"
    (by decide) (by decide) (by decide)

theorem buildEnv_defaults (params : List Param)
    (h : ∀ p ∈ params, p.default.isSome) :
    buildEnv params [] [] =
      .ok (params.map (fun p => (p.name, p.default.getD Val.vnone))) := by
  induction params with
  | nil => rfl
  | cons p ps ih =>
    obtain ⟨d, hd⟩ :=
      Option.isSome_iff_exists.mp (h p (List.mem_cons_self _ _))
    have ih2 := ih (fun q hq => h q (List.mem_cons_of_mem _ hq))
    simp [buildEnv, lookupStr, hd, ih2]

theorem bindCall_no_args (params : List Param) :
    bindCall params [] [] = buildEnv params [] [] := by
  rw [bindCall, if_neg (by simp)]
  rfl

/-- C8: reset is literally set of the empty map, and after it every
registered Configurable invoked with no arguments hands its underlying
callable exactly the argument environment of its own declared defaults
(the environment of the never-configured state), with no override
injected. -/
theorem c8_reset_defaults :
    (∀ st, Config.reset st = Config.set st []) ∧
    (∀ st cid c fuel,
      lookupStr ((Config.reset st).1).configurables cid = some c →
      (∀ p ∈ c.func.params, p.default.isSome) →
      ∃ st1 n, call_proxy (fuel + 1) (Config.reset st).1 cid [] [] =
        (st1, .ok (defaultsEnv c.func, .vret cid n))) := by
  refine ⟨fun st => rfl, ?_⟩
  intro st cid c fuel hl hdef
  have hl2 : (lookupStr st.configurables cid).map
      (fun c0 => ({ c0 with
        is_dirty := true,
        last_ns_config :=
          some ((lookupStr ([] : List (String × Cfg)) c0.nid).getD []),
        last_global_config :=
          some ((lookupStr ([] : List (String × Cfg)) "*").getD []) } :
          Configurable)) = some c := by
    rw [← lookupStr_map]
    exact hl
  obtain ⟨c0, hc0, hTc⟩ := Option.map_eq_some'.mp hl2
  have hdirty : c.is_dirty = true := by rw [← hTc]
  have hns : c.last_ns_config = some [] := by rw [← hTc]; rfl
  have hgl : c.last_global_config = some [] := by rw [← hTc]; rfl
  rw [call_proxy_succ_dirty fuel ((Config.reset st).1) cid [] [] c [] []
    hl hdirty hns hgl]
  have hsel0 : ∀ k v, k ∈ configurable_param_names c.func →
      specSelect [] [] k = some v → v.isInst = false := by
    intro k v _ hs
    simp [specSelect, lookupStr] at hs
  rw [mkKwargsAux_pure (try_instantiate fuel) (try_instantiate_pure fuel)
    [] [] (configurable_param_names c.func) hsel0 ((Config.reset st).1) []]
  have hfm : (configurable_param_names c.func).filterMap
      (fun k => (specSelect [] [] k).map (fun v => (k, v))) = [] :=
    List.filterMap_eq_nil_iff.mpr (fun k _ => by simp [specSelect, lookupStr])
  have hbind : bindCall c.func.params [] (mergeKw [] []) =
      .ok (defaultsEnv c.func) := by
    rw [show mergeKw [] [] = ([] : Cfg) from rfl, bindCall_no_args,
      buildEnv_defaults c.func.params hdef]
    rfl
  simp only [List.nil_append, hfm, hbind]
  exact ⟨_, _, rfl⟩

/-- Witness for C8: resetting the configured train registry makes a
no-argument call hand train its declared defaults again. -/
theorem c8_witness :
    (Config.reset trainCfgSt = Config.set trainCfgSt []) ∧
    (∃ st1 n, call_proxy 1 (Config.reset trainCfgSt).1 "train" [] [] =
      (st1, .ok (defaultsEnv trainResetC.func, .vret "train" n))) :=
  ⟨c8_reset_defaults.1 trainCfgSt,
   c8_reset_defaults.2 trainCfgSt "train" trainResetC 0
     (by decide) (by decide)⟩

/-- C1: after a successful set, every registered Configurable holds as
pending configurations exactly its own namespace entry of the new map and
the star namespace entry (empty maps when absent) and is dirty; and the
kwargs-building loop of resolution binds each configurable parameter name
to the namespace-local value when defined, else the global value when
defined, and injects no binding otherwise.  The second part is stated for
any instantiation function that is the identity on plain values, which
try_instantiate is; selections are assumed plain so that the selected
value is the bound value itself. -/
theorem c1_resolution_precedence :
    (∀ st flat st', Config.set st flat = (st', none) →
      ∀ kv ∈ st'.configurables,
        kv.2.is_dirty = true ∧
        kv.2.last_ns_config =
          some ((lookupStr st'.namespace_configs kv.2.nid).getD []) ∧
        kv.2.last_global_config =
          some ((lookupStr st'.namespace_configs "*").getD [])) ∧
    (∀ (inst : ConfigState → Val → ConfigState × Except Err Val)
        ks (ns gl : Cfg) st st1 kw p,
      (∀ s v, v.isInst = false → inst s v = (s, .ok v)) →
      (∀ k v, k ∈ ks → specSelect ns gl k = some v → v.isInst = false) →
      mkKwargsAux inst st ks ns gl [] = (st1, .ok kw) →
      lookupStr kw p = if p ∈ ks then specSelect ns gl p else none) := by
  constructor
  · intro st flat st' hset kv hkv
    cases hfc : flat_config_to_namespace_configs st.configurables flat with
    | error e =>
      rw [Config.set] at hset
      rw [hfc] at hset
      simp at hset
    | ok nc =>
      rw [Config.set] at hset
      rw [hfc] at hset
      have hst' : st' = reconfigure_all ⟨st.configurables, st.namespaces, nc⟩ := by
        have := congrArg Prod.fst hset
        simpa using this.symm
      subst hst'
      obtain ⟨kv0, h0, heq⟩ := List.mem_map.mp hkv
      rw [← heq]
      refine ⟨rfl, ?_, rfl⟩
      rfl
  · intro inst ks ns gl st st1 kw p hid hni hmk
    rw [mkKwargsAux_pure inst hid ns gl ks hni st []] at hmk
    have hkw : kw =
        ks.filterMap (fun k => (specSelect ns gl k).map (fun v => (k, v))) := by
      have := congrArg Prod.snd hmk
      simpa using this.symm
    rw [hkw]
    exact lookup_filterMap_sel ns gl ks p

/-- Witness for C1 at the configured train registry and a one-parameter
selection. -/
theorem c1_witness :
    ((trainCfgSt.configurables.head?.getD ("", trainResetC)).2.is_dirty = true ∧
      (trainCfgSt.configurables.head?.getD ("", trainResetC)).2.last_ns_config =
        some ((lookupStr trainCfgSt.namespace_configs
          (trainCfgSt.configurables.head?.getD ("", trainResetC)).2.nid).getD []) ∧
      (trainCfgSt.configurables.head?.getD ("", trainResetC)).2.last_global_config =
        some ((lookupStr trainCfgSt.namespace_configs "*").getD [])) ∧
    lookupStr [("optimizer", Val.vstr "sgd")] "optimizer" =
      (if "optimizer" ∈ ["optimizer", "lr"]
       then specSelect [("optimizer", Val.vstr "sgd")] [] "optimizer"
       else none) := by
  constructor
  · exact c1_resolution_precedence.1 trainSt
      [("train.optimizer", Val.vstr "sgd")] trainCfgSt (by decide)
      (trainCfgSt.configurables.head?.getD ("", trainResetC)) (by decide)
  · exact c1_resolution_precedence.2 (fun s v => (s, .ok v))
      ["optimizer", "lr"] [("optimizer", Val.vstr "sgd")] []
      ConfigState.init ConfigState.init [("optimizer", Val.vstr "sgd")]
      "optimizer" (fun s v _ => rfl)
      (by
        intro k v hk hs
        simp only [List.mem_cons, List.not_mem_nil, or_false] at hk
        cases hk with
        | inl h =>
          subst h
          simp [specSelect, lookupStr] at hs
          rw [← hs]
          rfl
        | inr h =>
          subst h
          simp [specSelect, lookupStr] at hs)
      (by decide)

theorem buildEnv_lookup (params : List Param) (kwm : Cfg) :
    ∀ env, buildEnv params [] kwm = .ok env →
      (params.map Param.name).Nodup →
      ∀ p ∈ params, lookupStr env p.name =
        (match lookupStr kwm p.name with
         | some v => some v
         | none => p.default) := by
  induction params with
  | nil => intro env _ _ p hp; exact absurd hp (List.not_mem_nil _)
  | cons q ps ih =>
    intro env h hnd p hp
    rw [List.map_cons, List.nodup_cons] at hnd
    cases hq : lookupStr kwm q.name with
    | some v =>
      rw [buildEnv, hq] at h
      cases hrec : buildEnv ps [] kwm with
      | error e => rw [hrec] at h; simp at h
      | ok env' =>
        rw [hrec] at h
        simp only [Except.ok.injEq] at h
        subst h
        cases List.mem_cons.mp hp with
        | inl hpq =>
          subst hpq
          rw [lookupStr, if_pos rfl, hq]
        | inr hps =>
          have hne : q.name ≠ p.name := by
            intro he
            exact hnd.1 (he ▸ List.mem_map_of_mem Param.name hps)
          rw [lookupStr, if_neg hne]
          exact ih env' hrec hnd.2 p hps
    | none =>
      cases hd : q.default with
      | some d =>
        rw [buildEnv, hq, hd] at h
        cases hrec : buildEnv ps [] kwm with
        | error e => rw [hrec] at h; simp at h
        | ok env' =>
          rw [hrec] at h
          simp only [Except.ok.injEq] at h
          subst h
          cases List.mem_cons.mp hp with
          | inl hpq =>
            subst hpq
            rw [lookupStr, if_pos rfl, hq, hd]
          | inr hps =>
            have hne : q.name ≠ p.name := by
              intro he
              exact hnd.1 (he ▸ List.mem_map_of_mem Param.name hps)
            rw [lookupStr, if_neg hne]
            exact ih env' hrec hnd.2 p hps
      | none =>
        rw [buildEnv, hq, hd] at h
        simp at h

/-- C2 amended: a proxy call with keyword arguments only binds every
parameter to the caller keyword if supplied, else the configured value,
else the declared default, exactly as the claim describes; but a
positional argument for a parameter that carries a configured value is
rejected with the multiple-values TypeError, because the partial
application binds every configured parameter as a keyword. -/
theorem c2_keyword_override_positional_conflict :
    (∀ params (cfg kw : Cfg) env,
      (params.map Param.name).Nodup →
      (kw.map Prod.fst).Nodup →
      bindCall params [] (mergeKw cfg kw) = .ok env →
      ∀ p ∈ params, lookupStr env p.name =
        (match lookupStr kw p.name with
         | some v => some v
         | none =>
           match lookupStr cfg p.name with
           | some v => some v
           | none => p.default)) ∧
    (∀ params (cfg : Cfg) (pos : List Val) (kw : Cfg) p,
      pos.length ≤ params.length →
      p ∈ params.take pos.length →
      (lookupStr cfg p.name).isSome = true →
      (∀ kv ∈ mergeKw cfg kw, params.any (fun q => q.name == kv.1) = true) →
      ∃ k, bindCall params pos (mergeKw cfg kw) =
        .error (.multipleValues k)) := by
  constructor
  · intro params cfg kw env hndp hndk hb p hp
    rw [bindCall, if_neg (by simp)] at hb
    cases hf1 : (mergeKw cfg kw).find?
        (fun kv => params.all fun q => !(q.name == kv.1)) with
    | some kv => rw [hf1] at hb; simp at hb
    | none =>
      rw [hf1] at hb
      have hf2 : (mergeKw cfg kw).find?
          (fun kv =>
            ((params.take ([] : List Val).length).map Param.name).contains
              kv.1) = none := by
        apply List.find?_eq_none.mpr
        intro x _
        simp
      rw [hf2] at hb
      have hchain := buildEnv_lookup params (mergeKw cfg kw) env hb hndp p hp
      rw [lookup_mergeKw kw cfg p.name hndk] at hchain
      cases h1 : lookupStr kw p.name with
      | some v => rw [h1] at hchain; exact hchain
      | none =>
        rw [h1] at hchain
        cases h2 : lookupStr cfg p.name with
        | some v => rw [h2] at hchain; exact hchain
        | none => rw [h2] at hchain; exact hchain
  · intro params cfg pos kw p hlen hp hcfg hkwall
    rw [bindCall, if_neg (by omega)]
    have hf1 : (mergeKw cfg kw).find?
        (fun kv => params.all fun q => !(q.name == kv.1)) = none := by
      apply List.find?_eq_none.mpr
      intro kv hkv
      have h2 := hkwall kv hkv
      rw [List.any_eq_true] at h2
      obtain ⟨q, hq, hqn⟩ := h2
      rw [List.all_eq_true]
      intro hall
      have := hall q hq
      rw [hqn] at this
      simp at this
    rw [hf1]
    obtain ⟨v, hv⟩ :=
      Option.isSome_iff_exists.mp (mergeKw_isSome kw cfg p.name hcfg)
    have hmem : (p.name, v) ∈ mergeKw cfg kw := lookupStr_mem hv
    have hpred : (((params.take pos.length).map Param.name).contains
        p.name) = true := by
      have hm : p.name ∈ (params.take pos.length).map Param.name :=
        List.mem_map_of_mem Param.name hp
      simpa using hm
    have hfind2 : ((mergeKw cfg kw).find?
        (fun kv =>
          ((params.take pos.length).map Param.name).contains kv.1)).isSome := by
      rw [List.find?_isSome]
      exact ⟨(p.name, v), hmem, hpred⟩
    obtain ⟨kv2, hkv2⟩ := Option.isSome_iff_exists.mp hfind2
    rw [hkv2]
    exact ⟨kv2.1, rfl⟩

/-- Witness for C2 amended at the train signature: a keyword call merges
caller over configuration over defaults, and a positional argument for
the configured optimizer parameter is rejected. -/
theorem c2_witness :
    (lookupStr [("optimizer", Val.vstr "sgd"), ("lr", Val.vint 9)]
        (Param.name ⟨"optimizer", some (Val.vstr "adam")⟩) =
      (match lookupStr [("lr", Val.vint 9)]
          (Param.name ⟨"optimizer", some (Val.vstr "adam")⟩) with
       | some v => some v
       | none =>
         match lookupStr [("optimizer", Val.vstr "sgd")]
             (Param.name ⟨"optimizer", some (Val.vstr "adam")⟩) with
         | some v => some v
         | none => Param.default ⟨"optimizer", some (Val.vstr "adam")⟩)) ∧
    (∃ k, bindCall trainFunc.params [Val.vstr "radam"]
        (mergeKw [("optimizer", Val.vstr "sgd")] []) =
      .error (.multipleValues k)) :=
  ⟨c2_keyword_override_positional_conflict.1 trainFunc.params
      [("optimizer", Val.vstr "sgd")] [("lr", Val.vint 9)]
      [("optimizer", Val.vstr "sgd"), ("lr", Val.vint 9)]
      (by decide) (by decide) (by decide)
      ⟨"optimizer", some (Val.vstr "adam")⟩ (by decide),
   c2_keyword_override_positional_conflict.2 trainFunc.params
      [("optimizer", Val.vstr "sgd")] [Val.vstr "radam"] []
      ⟨"optimizer", some (Val.vstr "adam")⟩
      (by decide) (by decide) (by decide) (by decide)⟩

theorem segsAux_ne_nil : ∀ cs acc, segsAux cs acc ≠ [] := by
  intro cs
  induction cs with
  | nil => intro acc; simp [segsAux]
  | cons c cs ih =>
    intro acc
    rw [segsAux]
    by_cases h : c = '.'
    · simp [h]
    · simp only [h, if_false]
      exact ih (c :: acc)

theorem segs_ne_nil (cs : List Char) : segs cs ≠ [] :=
  segsAux_ne_nil cs []

theorem segsPatternOk_iff (l : List (List Char)) (hl : l ≠ []) :
    segsPatternOk l = (l.all isWordSeg || starNsForm l) := by
  match l with
  | [] => exact absurd rfl hl
  | [w] => simp [segsPatternOk, starNsForm]
  | a :: x :: rest =>
    show (if a = ['*'] then (x :: rest).length = 1 && (x :: rest).all isWordSeg
          else ((a :: x :: rest).all isWordSeg)) = _
    by_cases ha : a = ['*']
    · subst ha
      cases rest with
      | nil =>
        have hstar : isWordSeg ['*'] = false := by decide
        simp [hstar, starNsForm]
      | cons y rest2 =>
        have hstar : isWordSeg ['*'] = false := by decide
        simp [hstar, starNsForm]
    · cases rest with
      | nil => simp [ha, starNsForm]
      | cons y rest2 => simp [ha, starNsForm]

theorem matchKey_eq_specIsKey (s : String) :
    matchKeyPattern s = specIsKey s := by
  rw [matchKeyPattern, specIsKey, specIsPlainIdent]
  exact segsPatternOk_iff _ (segs_ne_nil _)

/-- C7 counterexample: the single pattern of validate_id accepts strings
that carry the instanced marker or the star global segment, which lie
outside the plain dotted-identifier grammar the claim prescribes, instead
of failing with InvalidName on them. -/
theorem c7_counterexample :
    validate_id "@a.b" = .ok "@a.b" ∧ specIsPlainIdent "@a.b" = false ∧
    validate_id "*.b" = .ok "*.b" ∧ specIsPlainIdent "*.b" = false := by
  refine ⟨by decide, by decide, by decide, by decide⟩

/-- C7 amended: validate_id implements the Key grammar, not the plain
dotted-identifier grammar, so the instanced-marker and global-segment
forms are accepted rather than rejected with InvalidName.  The exactness
statement is scoped to the domain on which the modelled pattern coincides
with the host regex, namely strings of ASCII characters not ending in a
newline (elsewhere the Unicode-aware word class and the end anchor of the
host accept strictly more, never less): on that domain a string validates
precisely when, after stripping one optional leading instanced marker, it
is either a plain dotted identifier or the star global segment followed
by one word segment, and no dot-segment of the raw string is a Python
keyword. -/
theorem c7_amended (s : String)
    (_hascii : ∀ c ∈ s.data, c.toNat < 128)
    (_hnl : s.data.getLast? ≠ some (Char.ofNat 10)) :
    validate_id s = .ok s ↔
      (specIsKey s = true ∧
        (segs s.data).all
          (fun seg => !(pyKeywords.contains (String.mk seg))) = true) := by
  have hval_eq : validate_id s =
      (if specIsKey s = false then .error (.invalidName s)
       else if (segs s.data).any
           (fun seg => pyKeywords.contains (String.mk seg))
         then .error (.keywordName s)
         else .ok s) := by
    rw [validate_id, matchKey_eq_specIsKey]
  by_cases hsk : specIsKey s = true
  · rw [hval_eq, if_neg (show ¬(specIsKey s = false) by rw [hsk]; simp)]
    cases hany : (segs s.data).any
        (fun seg => pyKeywords.contains (String.mk seg)) with
    | true =>
      rw [if_pos (show (true : Bool) = true from rfl)]
      constructor
      · intro h
        simp at h
      · intro h
        have h2 := h.2
        rw [List.all_eq_true] at h2
        rw [List.any_eq_true] at hany
        obtain ⟨x, hx, hpx⟩ := hany
        have := h2 x hx
        rw [hpx] at this
        simp at this
    | false =>
      rw [if_neg (show ¬((false : Bool) = true) by simp)]
      constructor
      · intro _
        refine ⟨hsk, ?_⟩
        rw [List.all_eq_true]
        intro x hx
        rw [List.any_eq_false] at hany
        have := hany x hx
        simp at this
        simp [this]
      · intro _
        rfl
  · have h1 : specIsKey s = false := by
      cases h : specIsKey s
      · rfl
      · exact absurd h hsk
    rw [hval_eq, if_pos h1]
    constructor
    · intro h
      simp at h
    · intro h
      have h2 := h.1
      rw [h1] at h2
      simp at h2

/-- Witness for C7 amended at a concrete marker-carrying key inside the
scoped domain. -/
theorem c7_witness :
    (∀ c ∈ ("@fizz.buzz" : String).data, c.toNat < 128) ∧
    ("@fizz.buzz" : String).data.getLast? ≠ some (Char.ofNat 10) ∧
    validate_id "@fizz.buzz" = .ok "@fizz.buzz" :=
  ⟨by decide, by decide,
   (c7_amended "@fizz.buzz" (by decide) (by decide)).mpr
     ⟨by decide, by decide⟩⟩
